import Mathlib

/-!
Verification of the possession-reconstruction engine of the ShotsDashboard
repository (`src/daily_fetch.py`, mirrored in `src/cbbd_data/fix_possessions.py`).

The development shallowly embeds, from the source:
* the event record model and the text helpers (`_safe_str`, `_safe_txt`,
  `_is_made`, `_is_missed`, the `"M of N"` pattern search),
* the sequence orderer (sort by period asc, secondsRemaining desc, id asc),
* the three context classifiers (`_precompute_last_ft_flags`,
  `_precompute_tech_ft_flags`, `_classify_dead_ball_rebounds`),
* the possession state machine (`track_possessions_v2`),
* the possession classifier (`classify_possessions`), restricted to the
  fields the verified properties mention,
* the four-factors aggregator (`compute_four_factors`), restricted likewise.

Null values (Python `None` / pandas `NaN`) are modelled as `Option.none`;
Python truthiness of a team value is modelled as "present and non-empty".
-/

namespace ShotsDash

/-- One raw play-by-play row (`PlayEvent` in the spec).  `playType`,
`playText` and `team` are nullable in the data and modelled as `Option`. -/
structure PlayEvent where
  id : Int
  gameId : Int
  period : Int
  secondsRemaining : Int
  playType : Option String
  playText : Option String
  team : Option String
deriving DecidableEq, Repr

/-- `_safe_str`: string value of a nullable field, `""` for null. -/
def safeStr : Option String → String
  | none => ""
  | some s => s

/-- `str.lower()`, written over the character list so that it evaluates
inside the kernel. -/
def lowerStr (s : String) : String :=
  String.mk (s.data.map Char.toLower)

/-- `_safe_txt`: lowercased string value of a nullable field, `""` for null. -/
def safeTxt : Option String → String
  | none => ""
  | some s => lowerStr s

/-- Python's substring containment `pat in s` on char lists. -/
def listHasSub (pat : List Char) : List Char → Bool
  | [] => pat.isEmpty
  | c :: rest => pat.isPrefixOf (c :: rest) || listHasSub pat rest

/-- Python's substring containment `pat in s` for strings. -/
def strContains (s pat : String) : Bool :=
  listHasSub pat.toList s.toList

/-- `_is_made`: text indicates a made shot (handles both API text formats). -/
def isMade (txt : String) : Bool :=
  strContains txt "makes" || (strContains txt " made " && !strContains txt "missed")

/-- `_is_missed`: text indicates a missed shot (handles both formats). -/
def isMissed (txt : String) : Bool :=
  strContains txt "misses" || strContains txt "missed"

/-- The characters matched by the regex class `\s` (ASCII). -/
def isWsChar (c : Char) : Bool :=
  c == ' ' || c == '\t' || c == '\n' || c == '\r' || c == '\x0b' || c == '\x0c'

/-- Numeric value of a digit run (the regex groups are fed to `int`). -/
def digitsToNat (ds : List Char) : Nat :=
  ds.foldl (fun n c => 10 * n + (c.toNat - '0'.toNat)) 0

/-- Try to match the regex `(\d+)\s+of\s+(\d+)` at the start of `cs`,
with the greedy (maximal-munch) semantics of the original pattern. -/
def matchMofNAt (cs : List Char) : Option (Nat × Nat) :=
  let p1 := cs.span Char.isDigit
  if p1.1.isEmpty then none else
  let p2 := p1.2.span isWsChar
  if p2.1.isEmpty then none else
  match p2.2 with
  | 'o' :: 'f' :: r3 =>
    let p3 := r3.span isWsChar
    if p3.1.isEmpty then none else
    let p4 := p3.2.span Char.isDigit
    if p4.1.isEmpty then none else some (digitsToNat p1.1, digitsToNat p4.1)
  | _ => none

/-- `re.search`: leftmost match of `(\d+)\s+of\s+(\d+)` in the char list. -/
def searchMofN : List Char → Option (Nat × Nat)
  | [] => none
  | c :: cs =>
    match matchMofNAt (c :: cs) with
    | some mn => some mn
    | none => searchMofN cs

/-- Leftmost `"M of N"` pattern of a string, as `re.search` finds it. -/
def matchMofN (s : String) : Option (Nat × Nat) :=
  searchMofN s.toList

/-! ### Sequence orderer

`game_df.sort_values(["period", "secondsRemaining", "id"],
ascending=[True, False, True])`: a stable sort on the lexicographic key
(period asc, secondsRemaining desc, id asc). -/

/-- The sort key comparison of the sequence orderer. -/
def evLe (a b : PlayEvent) : Bool :=
  if a.period = b.period then
    if a.secondsRemaining = b.secondsRemaining then decide (a.id ≤ b.id)
    else decide (b.secondsRemaining < a.secondsRemaining)
  else decide (a.period < b.period)

/-- Stable insertion of `a` into `l`: `a` goes in front of the first element
it compares `le` to. -/
def insertBy (le : α → α → Bool) (a : α) : List α → List α
  | [] => [a]
  | b :: l => if le a b then a :: b :: l else b :: insertBy le a l

/-- Stable insertion sort by `le`. -/
def sortBy (le : α → α → Bool) : List α → List α
  | [] => []
  | a :: l => insertBy le a (sortBy le l)

/-- The sequence orderer: events sorted by
(period asc, secondsRemaining desc, id asc). -/
def orderEvents (l : List PlayEvent) : List PlayEvent :=
  sortBy evLe l

/-! ### Context classifier 1: last free throw (`_precompute_last_ft_flags`)

The three classifiers are keyed in the source by original dataframe index;
since the state machine walks the same sorted sequence, they are modelled
positionally over the sorted event list. -/

/-- Whether the event at position `pos` of the sorted sequence is the last
free throw of its trip.  New text format: `"M of N"` present, last iff
`M = N`.  Old format: last iff the next event in sort order is not another
`MadeFreeThrow` at the identical clock; the final event of the game is last. -/
def lastFTFlagAt (evs : List PlayEvent) (pos : Nat) : Bool :=
  match evs[pos]? with
  | none => false
  | some row =>
    match matchMofN (safeTxt row.playText) with
    | some mn => mn.1 == mn.2
    | none =>
      match evs[pos + 1]? with
      | some nxt =>
        !((nxt.period == row.period && nxt.secondsRemaining == row.secondsRemaining)
          && nxt.playType == some "MadeFreeThrow")
      | none => true

/-! ### Context classifier 2: technical free throw (`_precompute_tech_ft_flags`) -/

/-- Backward scan of `_precompute_tech_ft_flags`, over the (at most 5)
predecessors of the free throw, nearest first.  The scan stops at a period
or clock change, succeeds at a play type containing `"Technical"`, skips
other free throws and personal fouls, and stops at anything else. -/
def techScan (row : PlayEvent) : List PlayEvent → Bool
  | [] => false
  | prev :: rest =>
    if prev.period ≠ row.period then false
    else if prev.secondsRemaining ≠ row.secondsRemaining then false
    else if strContains (safeStr prev.playType) "Technical" then true
    else if prev.playType = some "MadeFreeThrow" ∨ prev.playType = some "PersonalFoul" then
      techScan row rest
    else false

/-- Whether the event at `pos` is a technical free throw: backward scan over
`range(pos-1, max(pos-6, -1), -1)`, i.e. at most the 5 nearest predecessors. -/
def techFTFlagAt (evs : List PlayEvent) (pos : Nat) : Bool :=
  match evs[pos]? with
  | none => false
  | some row => techScan row (((evs.take pos).reverse).take 5)

/-! ### Context classifier 3: dead-ball rebounds (`_classify_dead_ball_rebounds`) -/

/-- `FG_TYPES`. -/
def fgTypes : List String :=
  ["JumpShot", "LayUpShot", "DunkShot", "TipShot"]

/-- Backward scan of `_classify_dead_ball_rebounds` over the predecessors of
the dead-ball rebound (nearest first, each paired with its last-free-throw
flag).  Stops at a period change with the default; skips substitutions, TV
timeouts, empty types and any play type none of the branches recognise;
classifies from the nearest free throw or field-goal attempt; stops with the
default at turnovers and personal fouls. -/
def dbScan (row : PlayEvent) : List (PlayEvent × Bool) → String
  | [] => "end_possession"
  | (prev, prevLast) :: rest =>
    if prev.period ≠ row.period then "end_possession"
    else
      let pt := safeStr prev.playType
      if pt = "Substitution" ∨ pt = "Official TV Timeout" ∨ pt = "" then dbScan row rest
      else if pt = "MadeFreeThrow" then
        if prevLast = false then "mid_ft_sequence"
        else if isMade (safeTxt prev.playText) then "after_made_last_ft"
        else "end_possession"
      else if pt ∈ fgTypes then
        if isMissed (safeTxt prev.playText) then
          if prev.team.isSome ∧ row.team.isSome ∧ prev.team = row.team then "same_team_fg_miss"
          else "end_possession"
        else "end_possession"
      else if strContains pt "Turnover" ∨ pt = "PersonalFoul" then "end_possession"
      else dbScan row rest

/-- Dead-ball rebound category of the event at `pos`: backward scan over
`range(pos-1, max(pos-10, -1), -1)`, i.e. at most the 9 nearest predecessors. -/
def dbRebClassAt (evs : List PlayEvent) (pos : Nat) : String :=
  match evs[pos]? with
  | none => "end_possession"
  | some row =>
    dbScan row ((((evs.enum.take pos).reverse).take 9).map
      (fun p => (p.2, lastFTFlagAt evs p.1)))

/-! ### Possession state machine (`track_possessions_v2`) -/

/-- One emitted row of `track_possessions_v2` (`PossessionEventRecord`). -/
structure PRecord where
  play_id : Int
  gameId : Int
  possession_id : Int
  possession_team : Option String
  play_type : String
  play_text : Option String
  team : Option String
  outcome : Option String
deriving DecidableEq, Repr

/-- The mutable state of the tracker loop.  `revRecords` holds the emitted
records newest first (the final output is its reverse); the Python list
append corresponds to consing, and the backward walk of the and-one
correction to a front-to-back walk here. -/
structure TrackState where
  poss_id : Int
  poss_team : Option String
  revRecords : List PRecord
  last_end_reason : Option String
  last_end_team : Option String
deriving DecidableEq, Repr

/-- The initial tracker state. -/
def initState : TrackState :=
  { poss_id := 0, poss_team := none, revRecords := [],
    last_end_reason := none, last_end_team := none }

/-- Python truthiness of a nullable team value: present and non-empty. -/
def truthy : Option String → Bool
  | none => false
  | some s => !(s == "")

/-- Helper of `uniqueFirst`: keeps the elements not seen yet, in order of
first appearance (structural recursion, so it evaluates in the kernel). -/
def uniqueFirstAux [DecidableEq α] (seen : List α) : List α → List α
  | [] => []
  | x :: xs =>
    if x ∈ seen then uniqueFirstAux seen xs
    else x :: uniqueFirstAux (x :: seen) xs

/-- First-occurrence deduplication, as `pandas.unique` keeps order. -/
def uniqueFirst [DecidableEq α] (l : List α) : List α :=
  uniqueFirstAux [] l

/-- The distinct non-null teams of the sorted event list, in order of first
appearance (`[t for t in game_df["team"].unique() if pd.notna(t)]`). -/
def teamsOf (evs : List PlayEvent) : List String :=
  uniqueFirst (evs.filterMap (·.team))

/-- `other_team`: the first listed team different from `t`, if any. -/
def otherTeam (teams : List String) (t : Option String) : Option String :=
  (teams.filter (fun x => decide (some x ≠ t))).head?

/-- The and-one correction loop
(`for rec in reversed(records): if rec["possession_id"] == oldId: rewrite
else break`): walking the emitted records newest first, records with
possession id `oldId` are relabelled to `newId` with owner `newTeam`, and
the walk stops at the first record with a different id. -/
def rewriteAnd1 (oldId newId : Int) (newTeam : Option String) : List PRecord → List PRecord
  | [] => []
  | r :: rest =>
    if r.possession_id = oldId then
      { r with possession_id := newId, possession_team := newTeam }
        :: rewriteAnd1 oldId newId newTeam rest
    else r :: rest

/-- The outcome of the per-event play-type dispatch of
`track_possessions_v2`, before the record is appended: the derived
`outcome`/`end_poss`/`next_team` triple together with the state fields the
branch may have mutated (`poss_id`, `poss_team`, the emitted records via the
and-one rewrite, and the and-one trackers). -/
structure Dispatch where
  outcome : Option String
  end_poss : Bool
  next_team : Option String
  poss_id : Int
  poss_team : Option String
  revRecords : List PRecord
  last_end_reason : Option String
  last_end_team : Option String
deriving DecidableEq, Repr

/-- The play-type dispatch of the `track_possessions_v2` loop body.  The
classifier lookups `last_ft_flags.get(idx, False)` etc. are passed in as
`lastFlag`/`techFlag`/`dbClass`. -/
def dispatch (teams : List String) (lastFlag techFlag : Bool) (dbClass : String)
    (row : PlayEvent) (st : TrackState) : Dispatch :=
  let pt := safeStr row.playType
  let txt := safeTxt row.playText
  let team := row.team
  let base : Dispatch :=
    { outcome := none, end_poss := false, next_team := none,
      poss_id := st.poss_id, poss_team := st.poss_team, revRecords := st.revRecords,
      last_end_reason := st.last_end_reason, last_end_team := st.last_end_team }
  if pt = "Jumpball" then
    if strContains txt "won" ∧ truthy team ∧ st.poss_team = none then
      { base with poss_team := team }
    else base
  else if pt ∈ fgTypes then
    let pteam := if st.poss_team = none then team else st.poss_team
    if isMade txt then
      { base with poss_team := pteam, outcome := some "made_fg", end_poss := true,
                  next_team := otherTeam teams pteam }
    else { base with poss_team := pteam }
  else if pt = "MadeFreeThrow" then
    if techFlag then { base with outcome := some "tech_ft" }
    else
      let d1 : Dispatch :=
        if truthy team ∧ st.poss_team ≠ none ∧ team ≠ st.poss_team ∧
            st.last_end_reason = some "made_fg" ∧ st.last_end_team = team then
          { base with poss_id := st.poss_id - 1, poss_team := team,
                      revRecords := rewriteAnd1 st.poss_id (st.poss_id - 1) team st.revRecords,
                      last_end_reason := some "and1_ft" }
        else if st.poss_team = none ∧ truthy team then { base with poss_team := team }
        else base
      if lastFlag then
        if isMade txt then
          { d1 with outcome := some "made_ft", end_poss := true,
                    next_team := otherTeam teams d1.poss_team }
        else { d1 with outcome := some "missed_last_ft" }
      else d1
  else if strContains pt "Turnover" then
    let pteam := if st.poss_team = none ∧ truthy team then team else st.poss_team
    { base with poss_team := pteam, outcome := some "turnover", end_poss := true,
                next_team := otherTeam teams pteam }
  else if pt = "Steal" then { base with outcome := some "steal" }
  else if pt = "Defensive Rebound" then
    { base with outcome := some "def_rebound", end_poss := true, next_team := team }
  else if pt = "Offensive Rebound" then { base with outcome := some "off_rebound" }
  else if pt = "Dead Ball Rebound" then
    if dbClass = "end_possession" then
      { base with outcome := some "dead_ball_rebound", end_poss := true, next_team := team }
    else { base with outcome := some "dead_ball_rebound" }
  else if pt = "End Period" ∨ pt = "End Game" then
    { base with outcome := some "end_period", end_poss := true, next_team := none }
  else base

/-- The play types that do not clear the and-one trackers. -/
def continuationSafe : List String :=
  ["PersonalFoul", "MadeFreeThrow", "Substitution", "Official TV Timeout", ""]

/-- One full iteration of the `track_possessions_v2` loop: dispatch on the
play type, append the record (with the post-dispatch `poss_id`/`poss_team`),
then the possession-end bookkeeping, or the clearing of the and-one trackers
at a non-continuation-safe play type. -/
def stepEvent (teams : List String) (lastFlag techFlag : Bool) (dbClass : String)
    (row : PlayEvent) (st : TrackState) : TrackState :=
  let d := dispatch teams lastFlag techFlag dbClass row st
  let rec0 : PRecord :=
    { play_id := row.id, gameId := row.gameId, possession_id := d.poss_id,
      possession_team := d.poss_team, play_type := safeStr row.playType,
      play_text := row.playText, team := row.team, outcome := d.outcome }
  if d.end_poss then
    { poss_id := d.poss_id + 1, poss_team := d.next_team,
      revRecords := rec0 :: d.revRecords,
      last_end_reason := d.outcome, last_end_team := d.poss_team }
  else if safeStr row.playType ∈ continuationSafe then
    { poss_id := d.poss_id, poss_team := d.poss_team,
      revRecords := rec0 :: d.revRecords,
      last_end_reason := d.last_end_reason, last_end_team := d.last_end_team }
  else
    { poss_id := d.poss_id, poss_team := d.poss_team,
      revRecords := rec0 :: d.revRecords,
      last_end_reason := none, last_end_team := none }

/-- The tracker state after the first `n` events of the sorted sequence. -/
def runSteps (teams : List String) (evs : List PlayEvent) : Nat → TrackState
  | 0 => initState
  | n + 1 =>
    match evs[n]? with
    | none => runSteps teams evs n
    | some row =>
      stepEvent teams (lastFTFlagAt evs n) (techFTFlagAt evs n) (dbRebClassAt evs n)
        row (runSteps teams evs n)

/-- `track_possessions_v2`: sort the events, pre-compute the classifier
flags, and run the state machine, emitting one record per event. -/
def trackPossessions (input : List PlayEvent) : List PRecord :=
  let evs := orderEvents input
  (runSteps (teamsOf evs) evs evs.length).revRecords.reverse

/-! ### Possession classifier (`classify_possessions`)

Modelled on the fields the verified properties mention (`possession_id`,
`possession_team`, `raw_outcome`).  Under distinct play ids the merge with
the time info and the `play_order` sort are order-preserving, so the groups
are read directly from the record stream, which is already in play order. -/

/-- One row of the final possession summary table, restricted to the fields
the verified properties mention. -/
structure PossSummary where
  possession_id : Int
  possession_team : Option String
  raw_outcome : Option String
deriving DecidableEq, Repr

/-- `sorted(poss["possession_id"].unique())`. -/
def possUniqueIds (records : List PRecord) : List Int :=
  sortBy (fun a b => decide (a ≤ b)) (uniqueFirst (records.map (·.possession_id)))

/-- `final_outcome`: the last non-null outcome of a possession's plays. -/
def finalOutcome (plays : List PRecord) : Option String :=
  ((plays.map (·.outcome)).filterMap id).getLast?

/-- One summary row per possession id, in ascending id order. -/
def possSummaries (records : List PRecord) : List PossSummary :=
  (possUniqueIds records).map fun pid =>
    let grp := records.filter (fun r => decide (r.possession_id = pid))
    { possession_id := pid,
      possession_team := grp.head?.bind (·.possession_team),
      raw_outcome := finalOutcome grp }

/-- `classify_possessions`, restricted to the modelled fields: the summary
rows with the `end_period` possessions filtered out. -/
def classifyPossessions (records : List PRecord) : List PossSummary :=
  (possSummaries records).filter (fun p => decide (p.raw_outcome ≠ some "end_period"))

/-! ### Four-factors aggregator (`compute_four_factors`)

Restricted to the counting fields and the possession estimate; the float
constant `0.475` is modelled exactly as the rational `19/40`. -/

/-- The per-team counts of `compute_four_factors` and the derived
possession estimate `FGA - ORB + TOV + 0.475 * FTA`. -/
structure FourFactors where
  FGA : Nat
  FGM : Nat
  FTA : Nat
  FTM : Nat
  TOV : Nat
  ORB : Nat
  DRB : Nat
  Possessions : ℚ
deriving DecidableEq, Repr

/-- The `compute_four_factors` loop body for one team. -/
def computeFF (evs : List PlayEvent) (team : String) : FourFactors :=
  let tp := evs.filter (fun e => decide (e.team = some team))
  let fg := tp.filter (fun e => match e.playType with
    | some s => decide (s ∈ fgTypes)
    | none => false)
  let fga := fg.length
  let fgm := (fg.filter (fun e => isMade (safeTxt e.playText))).length
  let ft := tp.filter (fun e => decide (e.playType = some "MadeFreeThrow"))
  let fta := ft.length
  let ftm := (ft.filter (fun e => isMade (safeTxt e.playText))).length
  let tov := (tp.filter (fun e => match e.playType with
    | some s => strContains s "Turnover"
    | none => false)).length
  let orb := (tp.filter (fun e => decide (e.playType = some "Offensive Rebound"))).length
  let drb := (tp.filter (fun e => decide (e.playType = some "Defensive Rebound"))).length
  { FGA := fga, FGM := fgm, FTA := fta, FTM := ftm, TOV := tov, ORB := orb, DRB := drb,
    Possessions := (fga : ℚ) - (orb : ℚ) + (tov : ℚ) + (19 / 40 : ℚ) * (fta : ℚ) }

/-! ### Generic list lemmas -/

/-- `Adj R l`: `R` holds between every two adjacent elements of `l`. -/
def Adj (R : α → α → Prop) : List α → Prop
  | [] => True
  | [_] => True
  | a :: b :: l => R a b ∧ Adj R (b :: l)

theorem adj_nil {R : α → α → Prop} : Adj R [] := trivial

theorem adj_single {R : α → α → Prop} (a : α) : Adj R [a] := trivial

theorem adj_cons_cons {R : α → α → Prop} {a b : α} {l : List α} :
    Adj R (a :: b :: l) ↔ R a b ∧ Adj R (b :: l) := Iff.rfl

theorem adj_tail {R : α → α → Prop} {a : α} {l : List α} (h : Adj R (a :: l)) :
    Adj R l := by
  cases l with
  | nil => trivial
  | cons b t => exact h.2

/-- The last element of a list (structural, kernel-friendly). -/
def lastElem : List α → Option α
  | [] => none
  | [a] => some a
  | _ :: b :: l => lastElem (b :: l)

theorem lastElem_cons_cons (a b : α) (l : List α) :
    lastElem (a :: b :: l) = lastElem (b :: l) := rfl

theorem lastElem_append_single (l : List α) (a : α) :
    lastElem (l ++ [a]) = some a := by
  induction l with
  | nil => rfl
  | cons x xs ih =>
    cases xs with
    | nil => rfl
    | cons y ys => simpa using ih

theorem head?_append_left {l : List α} (l₂ : List α) (h : l ≠ []) :
    (l ++ l₂).head? = l.head? := by
  cases l with
  | nil => exact absurd rfl h
  | cons a t => rfl

theorem head?_reverse_eq_lastElem (l : List α) :
    l.reverse.head? = lastElem l := by
  induction l with
  | nil => rfl
  | cons a t ih =>
    cases t with
    | nil => rfl
    | cons b t' =>
      have hne : (b :: t').reverse ≠ [] := by simp
      calc (a :: b :: t').reverse.head?
          = ((b :: t').reverse ++ [a]).head? := by simp
        _ = (b :: t').reverse.head? := head?_append_left [a] hne
        _ = lastElem (b :: t') := ih
        _ = lastElem (a :: b :: t') := rfl

theorem adj_append_single {R : α → α → Prop} {l : List α} {a : α}
    (h : Adj R l) (hl : ∀ z, lastElem l = some z → R z a) :
    Adj R (l ++ [a]) := by
  induction l with
  | nil => exact adj_single a
  | cons x xs ih =>
    cases xs with
    | nil => exact ⟨hl x rfl, adj_single a⟩
    | cons y ys =>
      refine ⟨h.1, ?_⟩
      exact ih h.2 (fun z hz => hl z hz)

theorem lastElem_reverse (l : List α) : lastElem l.reverse = l.head? := by
  rw [← head?_reverse_eq_lastElem, List.reverse_reverse]

theorem adj_reverse {R : α → α → Prop} {l : List α} (h : Adj R l) :
    Adj (fun x y => R y x) l.reverse := by
  induction l with
  | nil => exact adj_nil
  | cons a t ih =>
    have hrw : (a :: t).reverse = t.reverse ++ [a] := by simp
    rw [hrw]
    refine adj_append_single (ih (adj_tail h)) ?_
    intro z hz
    rw [lastElem_reverse t] at hz
    cases t with
    | nil => simp at hz
    | cons b t' =>
      have hzb : z = b := by simpa using hz.symm
      subst hzb
      exact h.1

/-! ### Sorting lemmas -/

theorem insertBy_perm (le : α → α → Bool) (a : α) (l : List α) :
    (insertBy le a l).Perm (a :: l) := by
  induction l with
  | nil => exact List.Perm.refl _
  | cons b t ih =>
    by_cases h : le a b = true
    · simp [insertBy, h]
    · simp only [insertBy, h, if_false]
      exact (ih.cons b).trans (List.Perm.swap a b t)

theorem sortBy_perm (le : α → α → Bool) (l : List α) :
    (sortBy le l).Perm l := by
  induction l with
  | nil => exact List.Perm.refl _
  | cons a t ih =>
    exact (insertBy_perm le a (sortBy le t)).trans (ih.cons a)

theorem mem_insertBy (le : α → α → Bool) (a x : α) (l : List α) :
    x ∈ insertBy le a l ↔ x = a ∨ x ∈ l := by
  rw [(insertBy_perm le a l).mem_iff, List.mem_cons]

theorem pairwise_insertBy {le : α → α → Bool}
    (htot : ∀ a b, le a b = true ∨ le b a = true)
    (htrans : ∀ a b c, le a b = true → le b c = true → le a c = true)
    {l : List α} (a : α) (h : l.Pairwise (le · · = true)) :
    (insertBy le a l).Pairwise (le · · = true) := by
  induction l with
  | nil => simp [insertBy]
  | cons b t ih =>
    by_cases hab : le a b = true
    · simp only [insertBy, hab, if_true]
      refine List.Pairwise.cons ?_ h
      intro x hx
      rcases List.mem_cons.mp hx with hb | ht
      · exact hb ▸ hab
      · exact htrans a b x hab (List.rel_of_pairwise_cons h ht)
    · simp only [insertBy, hab, if_false]
      have hba : le b a = true := (htot a b).resolve_left hab
      refine List.Pairwise.cons ?_ (ih (List.Pairwise.sublist (List.sublist_cons_self b t) h))
      intro x hx
      rcases (mem_insertBy le a x t).mp hx with hxa | hxt
      · exact hxa ▸ hba
      · exact List.rel_of_pairwise_cons h hxt

theorem pairwise_sortBy {le : α → α → Bool}
    (htot : ∀ a b, le a b = true ∨ le b a = true)
    (htrans : ∀ a b c, le a b = true → le b c = true → le a c = true)
    (l : List α) : (sortBy le l).Pairwise (le · · = true) := by
  induction l with
  | nil => simp [sortBy]
  | cons a t ih => exact pairwise_insertBy htot htrans a ih

/-- Two sorted lists that are permutations of each other and on which the
comparison is antisymmetric are equal. -/
theorem sorted_perm_eq {le : α → α → Bool} :
    ∀ l₁ l₂ : List α, l₁.Perm l₂ →
      l₁.Pairwise (le · · = true) → l₂.Pairwise (le · · = true) →
      (∀ a ∈ l₁, ∀ b ∈ l₁, le a b = true → le b a = true → a = b) →
      l₁ = l₂ := by
  intro l₁
  induction l₁ with
  | nil => intro l₂ hp _ _ _; exact (hp.nil_eq).symm ▸ rfl
  | cons a t₁ ih =>
    intro l₂ hp hs₁ hs₂ hanti
    cases l₂ with
    | nil => exact absurd hp.symm.nil_eq (by simp)
    | cons b t₂ =>
      have hab : a = b := by
        by_contra hne
        have hbmem : b ∈ a :: t₁ := hp.mem_iff.mpr (List.mem_cons_self b t₂)
        have hbt₁ : b ∈ t₁ := by
          rcases List.mem_cons.mp hbmem with h | h
          · exact absurd h.symm hne
          · exact h
        have hamem : a ∈ b :: t₂ := hp.mem_iff.mp (List.mem_cons_self a t₁)
        have hat₂ : a ∈ t₂ := by
          rcases List.mem_cons.mp hamem with h | h
          · exact absurd h hne
          · exact h
        have h₁ : le a b = true := List.rel_of_pairwise_cons hs₁ hbt₁
        have h₂ : le b a = true := List.rel_of_pairwise_cons hs₂ hat₂
        exact hne (hanti a (List.mem_cons_self a t₁) b hbmem h₁ h₂)
      subst hab
      have hpt : t₁.Perm t₂ := hp.cons_inv
      have := ih t₂ hpt (List.Pairwise.sublist (List.sublist_cons_self a t₁) hs₁)
        (List.Pairwise.sublist (List.sublist_cons_self a t₂) hs₂)
        (fun x hx y hy => hanti x (List.mem_cons_of_mem a hx) y (List.mem_cons_of_mem a hy))
      rw [this]

/-! ### `uniqueFirst` lemmas -/

theorem mem_uniqueFirstAux [DecidableEq α] :
    ∀ (l seen : List α) (x : α), x ∈ uniqueFirstAux seen l ↔ x ∈ l ∧ x ∉ seen
  | [], seen, x => by simp [uniqueFirstAux]
  | a :: t, seen, x => by
    rw [uniqueFirstAux]
    by_cases ha : a ∈ seen
    · rw [if_pos ha, mem_uniqueFirstAux t seen x]
      constructor
      · exact fun h => ⟨List.mem_cons_of_mem a h.1, h.2⟩
      · rintro ⟨h1, h2⟩
        rcases List.mem_cons.mp h1 with h3 | h3
        · exact absurd (h3 ▸ ha) h2
        · exact ⟨h3, h2⟩
    · rw [if_neg ha]
      constructor
      · intro h
        rcases List.mem_cons.mp h with h1 | h1
        · exact ⟨h1 ▸ List.mem_cons_self a t, h1 ▸ ha⟩
        · have := (mem_uniqueFirstAux t (a :: seen) x).mp h1
          refine ⟨List.mem_cons_of_mem a this.1, fun hc => this.2 (List.mem_cons_of_mem a hc)⟩
      · rintro ⟨h1, h2⟩
        rcases List.mem_cons.mp h1 with h3 | h3
        · exact h3 ▸ List.mem_cons_self _ _
        · by_cases hxa : x = a
          · exact hxa ▸ List.mem_cons_self _ _
          · refine List.mem_cons_of_mem _ ((mem_uniqueFirstAux t (a :: seen) x).mpr ⟨h3, ?_⟩)
            intro hc
            rcases List.mem_cons.mp hc with h4 | h4
            · exact hxa h4
            · exact h2 h4

theorem uniqueFirst_subset [DecidableEq α] (l : List α) (x : α)
    (h : x ∈ uniqueFirst l) : x ∈ l :=
  ((mem_uniqueFirstAux l [] x).mp h).1

theorem uniqueFirstAux_nodup [DecidableEq α] :
    ∀ (l seen : List α), (uniqueFirstAux seen l).Nodup
  | [], seen => by simp [uniqueFirstAux]
  | a :: t, seen => by
    rw [uniqueFirstAux]
    by_cases ha : a ∈ seen
    · rw [if_pos ha]; exact uniqueFirstAux_nodup t seen
    · rw [if_neg ha]
      refine List.Nodup.cons ?_ (uniqueFirstAux_nodup t (a :: seen))
      intro hmem
      exact ((mem_uniqueFirstAux t (a :: seen) a).mp hmem).2 (List.mem_cons_self a seen)

theorem uniqueFirst_nodup [DecidableEq α] (l : List α) : (uniqueFirst l).Nodup :=
  uniqueFirstAux_nodup l []

/-! ### Backward-scan window decomposition

The classifiers scan `((evs.take pos).reverse).take w`: the at most `w`
predecessors of position `pos`, nearest first.  If position `j` lies inside
that window, the window splits as `mid ++ tev :: rest` where `mid` holds
exactly the events strictly between `j` and `pos`, nearest first. -/

theorem window_decomp (l : List α) (pos j w : Nat) (tev : α)
    (hj : l[j]? = some tev) (hjp : j < pos) (hpos : pos ≤ l.length) (hw : pos - j ≤ w) :
    ∃ mid rest, ((l.take pos).reverse).take w = mid ++ tev :: rest ∧
      ∀ e ∈ mid, ∃ k, j < k ∧ k < pos ∧ l[k]? = some e := by
  have hsplit : l.take pos = l.take (j + 1) ++ (l.drop (j + 1)).take (pos - j - 1) := by
    have h2 := List.take_add l (j + 1) (pos - j - 1)
    rw [show j + 1 + (pos - j - 1) = pos by omega] at h2
    exact h2
  have htj : l.take (j + 1) = l.take j ++ [tev] := by
    rw [List.take_succ, hj]; rfl
  set A : List α := ((l.drop (j + 1)).take (pos - j - 1)).reverse with hA
  have hrev : (l.take pos).reverse = A ++ (tev :: (l.take j).reverse) := by
    rw [hsplit, List.reverse_append, htj, List.reverse_append]
    simp [hA]
  have hlenA : A.length = pos - j - 1 := by
    simp only [hA, List.length_reverse, List.length_take, List.length_drop]
    omega
  have hAle : A.length ≤ w := by omega
  refine ⟨A, (l.take j).reverse.take (w - A.length - 1), ?_, ?_⟩
  · rw [hrev, List.take_append_eq_append_take, List.take_of_length_le hAle]
    have hpos' : w - A.length = (w - A.length - 1) + 1 := by omega
    rw [hpos', List.take_succ_cons]
    simp
  · intro e he
    have he' : e ∈ (l.drop (j + 1)).take (pos - j - 1) := List.mem_reverse.mp he
    obtain ⟨i, hi⟩ := List.mem_iff_getElem?.mp he'
    rw [List.getElem?_take] at hi
    by_cases hilt : i < pos - j - 1
    · rw [if_pos hilt, List.getElem?_drop] at hi
      exact ⟨j + 1 + i, by omega, by omega, hi⟩
    · rw [if_neg hilt] at hi; exact absurd hi (by simp)

/-! ### Properties of the and-one rewrite -/

/-- The outcomes that accompany `end_poss = True` in the dispatch. -/
def terminalOutcomes : List String :=
  ["made_fg", "made_ft", "turnover", "def_rebound", "dead_ball_rebound", "end_period"]

/-- `o` is the outcome of a possession-terminating record. -/
def TermOut (o : Option String) : Prop :=
  ∃ s, o = some s ∧ s ∈ terminalOutcomes

/-- Emitted-order adjacency invariant: in `revRecords` (newest first) the
possession ids never increase toward the front. -/
def idGe (a b : PRecord) : Prop :=
  b.possession_id ≤ a.possession_id

/-- Boundary invariant on `revRecords`: whenever two adjacent records have
different possession ids, the older one is a possession terminator. -/
def boundaryOk (a b : PRecord) : Prop :=
  a.possession_id ≠ b.possession_id → TermOut b.outcome

theorem rewriteAnd1_cons (oldId newId : Int) (t : Option String) (r : PRecord)
    (rest : List PRecord) :
    rewriteAnd1 oldId newId t (r :: rest) =
      if r.possession_id = oldId then
        { r with possession_id := newId, possession_team := t }
          :: rewriteAnd1 oldId newId t rest
      else r :: rest := rfl

theorem rewriteAnd1_eq_takeWhile (oldId newId : Int) (t : Option String) :
    ∀ l : List PRecord,
      rewriteAnd1 oldId newId t l =
        (l.takeWhile (fun r => decide (r.possession_id = oldId))).map
            (fun r => { r with possession_id := newId, possession_team := t })
          ++ l.dropWhile (fun r => decide (r.possession_id = oldId))
  | [] => rfl
  | r :: rest => by
    by_cases h : r.possession_id = oldId
    · simp [rewriteAnd1_cons, h, List.takeWhile_cons, List.dropWhile_cons,
        rewriteAnd1_eq_takeWhile oldId newId t rest]
    · simp [rewriteAnd1_cons, h, List.takeWhile_cons, List.dropWhile_cons]

theorem rewriteAnd1_length (oldId newId : Int) (t : Option String) :
    ∀ l : List PRecord, (rewriteAnd1 oldId newId t l).length = l.length
  | [] => rfl
  | r :: rest => by
    rw [rewriteAnd1_cons]
    by_cases h : r.possession_id = oldId
    · simp [h, rewriteAnd1_length oldId newId t rest]
    · simp [h]

theorem rewriteAnd1_nonneg (oldId newId : Int) (t : Option String)
    (hnew : 0 ≤ newId) :
    ∀ l : List PRecord, (∀ r ∈ l, 0 ≤ r.possession_id) →
      ∀ r ∈ rewriteAnd1 oldId newId t l, 0 ≤ r.possession_id
  | [], _, r, hr => by simp [rewriteAnd1] at hr
  | x :: rest, h, r, hr => by
    rw [rewriteAnd1_cons] at hr
    by_cases hx : x.possession_id = oldId
    · rw [if_pos hx] at hr
      rcases List.mem_cons.mp hr with h1 | h1
      · rw [h1]; exact hnew
      · exact rewriteAnd1_nonneg oldId newId t hnew rest
          (fun r hm => h r (List.mem_cons_of_mem x hm)) r h1
    · rw [if_neg hx] at hr
      exact h r hr

theorem rewriteAnd1_head (oldId newId : Int) (t : Option String) (l : List PRecord) :
    (rewriteAnd1 oldId newId t l).head? =
      l.head?.map (fun r =>
        if r.possession_id = oldId then
          { r with possession_id := newId, possession_team := t }
        else r) := by
  cases l with
  | nil => rfl
  | cons r rest =>
    rw [rewriteAnd1_cons]
    by_cases h : r.possession_id = oldId
    · simp [h]
    · simp [h]

theorem rewriteAnd1_mono (o : Int) (t : Option String) :
    ∀ l : List PRecord, Adj idGe l →
      (∀ r, l.head? = some r → r.possession_id ≤ o) →
      Adj idGe (rewriteAnd1 o (o - 1) t l) ∧
        (∀ r, (rewriteAnd1 o (o - 1) t l).head? = some r → r.possession_id ≤ o - 1)
  | [], _, _ => ⟨adj_nil, by simp [rewriteAnd1]⟩
  | x :: rest, hadj, hhead => by
    rw [rewriteAnd1_cons]
    by_cases hx : x.possession_id = o
    · rw [if_pos hx]
      have htail := rewriteAnd1_mono o t rest (adj_tail hadj)
        (fun r hr => by
          cases rest with
          | nil => simp at hr
          | cons y ys =>
            have hy : r = y := (by simpa using hr : y = r).symm
            subst hy
            calc r.possession_id ≤ x.possession_id := hadj.1
              _ = o := hx)
      constructor
      · cases hrw : rewriteAnd1 o (o - 1) t rest with
        | nil => exact adj_single _
        | cons z zs =>
          refine adj_cons_cons.mpr ⟨?_, hrw ▸ htail.1⟩
          have := htail.2 z (by rw [hrw]; rfl)
          exact this
      · intro r hr
        have : r = { x with possession_id := o - 1, possession_team := t } :=
          (by simpa using hr : _ = r).symm
        rw [this]
    · rw [if_neg hx]
      have hxo : x.possession_id ≤ o := hhead x rfl
      refine ⟨hadj, ?_⟩
      intro r hr
      have : r = x := (by simpa using hr : x = r).symm
      subst this
      omega

theorem rewriteAnd1_lastElem (o : Int) (t : Option String) (ho : 1 ≤ o) :
    ∀ l : List PRecord, (∀ z, lastElem l = some z → z.possession_id = 0) →
      ∀ z, lastElem (rewriteAnd1 o (o - 1) t l) = some z → z.possession_id = 0
  | [], _, z, hz => by simp [rewriteAnd1, lastElem] at hz
  | x :: rest, h, z, hz => by
    rw [rewriteAnd1_cons] at hz
    by_cases hx : x.possession_id = o
    · rw [if_pos hx] at hz
      cases hrw : rewriteAnd1 o (o - 1) t rest with
      | nil =>
        have hrest : rest = [] := by
          have := rewriteAnd1_length o (o - 1) t rest
          rw [hrw] at this
          exact List.length_eq_zero.mp this.symm
        subst hrest
        rw [hrw] at hz
        have : z = { x with possession_id := o - 1, possession_team := t } :=
          (by simpa [lastElem] using hz : _ = z).symm
        have hx0 : x.possession_id = 0 := h x (by simp [lastElem])
        omega
      | cons y ys =>
        rw [hrw, lastElem_cons_cons] at hz
        have hrest : rest ≠ [] := by
          intro hc; subst hc; simp [rewriteAnd1] at hrw
        obtain ⟨y', ys', hys⟩ := List.exists_cons_of_ne_nil hrest
        have hlast : ∀ w, lastElem rest = some w → w.possession_id = 0 := by
          intro w hw
          refine h w ?_
          rw [hys] at hw ⊢
          rw [lastElem_cons_cons]
          exact hw
        have := rewriteAnd1_lastElem o t ho rest hlast z (by rw [hrw, hys] at *; exact hz)
        exact this
    · rw [if_neg hx] at hz
      exact h z hz

theorem rewriteAnd1_boundary (o : Int) (t : Option String) :
    ∀ l : List PRecord, Adj boundaryOk l →
      Adj boundaryOk (rewriteAnd1 o (o - 1) t l)
  | [], _ => adj_nil
  | x :: rest, hadj => by
    rw [rewriteAnd1_cons]
    by_cases hx : x.possession_id = o
    · rw [if_pos hx]
      cases rest with
      | nil => simp [rewriteAnd1]; exact adj_single _
      | cons y ys =>
        have htail := rewriteAnd1_boundary o t (y :: ys) (adj_tail hadj)
        rw [rewriteAnd1_cons] at htail ⊢
        by_cases hy : y.possession_id = o
        · rw [if_pos hy] at htail ⊢
          refine adj_cons_cons.mpr ⟨?_, htail⟩
          intro hne
          simp at hne
        · rw [if_neg hy] at htail ⊢
          refine adj_cons_cons.mpr ⟨?_, htail⟩
          intro _
          exact hadj.1 (by rw [hx]; exact fun hc => hy hc.symm)
    · rw [if_neg hx]
      exact hadj

/-! ### Dispatch characterization

Every dispatch branch either leaves `poss_id`, the emitted records and the
and-one trackers untouched, or is the and-one correction; and a branch that
ends the possession always carries a terminal outcome. -/

set_option maxHeartbeats 2000000 in
theorem dispatch_spec (teams : List String) (lastFlag techFlag : Bool) (dbClass : String)
    (row : PlayEvent) (st : TrackState) :
    ((dispatch teams lastFlag techFlag dbClass row st).end_poss = true →
      TermOut (dispatch teams lastFlag techFlag dbClass row st).outcome) ∧
    (((dispatch teams lastFlag techFlag dbClass row st).poss_id = st.poss_id ∧
      (dispatch teams lastFlag techFlag dbClass row st).revRecords = st.revRecords ∧
      (dispatch teams lastFlag techFlag dbClass row st).last_end_reason = st.last_end_reason ∧
      (dispatch teams lastFlag techFlag dbClass row st).last_end_team = st.last_end_team) ∨
     (st.last_end_reason = some "made_fg" ∧
      (dispatch teams lastFlag techFlag dbClass row st).poss_id = st.poss_id - 1 ∧
      (dispatch teams lastFlag techFlag dbClass row st).revRecords =
        rewriteAnd1 st.poss_id (st.poss_id - 1) row.team st.revRecords ∧
      (dispatch teams lastFlag techFlag dbClass row st).last_end_reason = some "and1_ft" ∧
      (dispatch teams lastFlag techFlag dbClass row st).last_end_team = st.last_end_team)) := by
  simp only [dispatch]
  split_ifs <;> simp_all [TermOut, terminalOutcomes]

/-! ### The tracker invariant -/

/-- The inductive invariant of the state machine: the possession counter is
non-negative; in the emitted records the ids never increase toward the
newest record, stay at or below the counter, are non-negative, and the very
first emitted record has id `0`; at every id boundary the older record is a
terminator; whenever the newest record's id is strictly below the counter
that record is a terminator; a pending `made_fg` terminator implies the
counter has already been incremented past `0`; and the counter is `0` while
nothing has been emitted. -/
structure Inv (st : TrackState) : Prop where
  pid_nonneg : 0 ≤ st.poss_id
  mono : Adj idGe st.revRecords
  head_le : ∀ r, st.revRecords.head? = some r → r.possession_id ≤ st.poss_id
  head_lt_term : ∀ r, st.revRecords.head? = some r →
    r.possession_id < st.poss_id → TermOut r.outcome
  recs_nonneg : ∀ r ∈ st.revRecords, 0 ≤ r.possession_id
  first_zero : ∀ r, lastElem st.revRecords = some r → r.possession_id = 0
  boundary : Adj boundaryOk st.revRecords
  madefg_ge_one : st.last_end_reason = some "made_fg" → 1 ≤ st.poss_id
  empty_pid : st.revRecords = [] → st.poss_id = 0

theorem inv_init : Inv initState := by
  constructor <;> simp [initState, lastElem, adj_nil]

/-- The `Inv` fields never mention the owner, so it may be replaced. -/
theorem inv_set_team {st : TrackState} (x : Option String) (h : Inv st) :
    Inv { st with poss_team := x } :=
  ⟨h.pid_nonneg, h.mono, h.head_le, h.head_lt_term, h.recs_nonneg,
   h.first_zero, h.boundary, h.madefg_ge_one, h.empty_pid⟩

/-- The dispatch result, read back as a tracker state (the state just
before the record of the current event is appended). -/
def dState (d : Dispatch) : TrackState :=
  { poss_id := d.poss_id, poss_team := d.poss_team, revRecords := d.revRecords,
    last_end_reason := d.last_end_reason, last_end_team := d.last_end_team }

theorem inv_dispatch (teams : List String) (lastFlag techFlag : Bool) (dbClass : String)
    (row : PlayEvent) (st : TrackState) (h : Inv st) :
    Inv (dState (dispatch teams lastFlag techFlag dbClass row st)) := by
  obtain ⟨-, hcase | hcase⟩ := dispatch_spec teams lastFlag techFlag dbClass row st
  · rcases hcase with ⟨h1, h2, h3, h4⟩
    have hst : dState (dispatch teams lastFlag techFlag dbClass row st) =
        { st with poss_team := (dispatch teams lastFlag techFlag dbClass row st).poss_team } := by
      simp [dState, h1, h2, h3, h4]
    rw [hst]
    exact inv_set_team _ h
  · rcases hcase with ⟨hmfg, h1, h2, h3, h4⟩
    have hge1 : 1 ≤ st.poss_id := h.madefg_ge_one hmfg
    have hmh := rewriteAnd1_mono st.poss_id row.team st.revRecords h.mono h.head_le
    refine ⟨?_, ?_, ?_, ?_, ?_, ?_, ?_, ?_, ?_⟩
    · show (0 : Int) ≤ (dispatch teams lastFlag techFlag dbClass row st).poss_id
      rw [h1]; omega
    · show Adj idGe (dispatch teams lastFlag techFlag dbClass row st).revRecords
      rw [h2]; exact hmh.1
    · intro r hr
      rw [show (dState (dispatch teams lastFlag techFlag dbClass row st)).revRecords =
        (dispatch teams lastFlag techFlag dbClass row st).revRecords from rfl, h2] at hr
      show r.possession_id ≤ (dispatch teams lastFlag techFlag dbClass row st).poss_id
      rw [h1]
      exact hmh.2 r hr
    · intro r hr hlt
      rw [show (dState (dispatch teams lastFlag techFlag dbClass row st)).revRecords =
        (dispatch teams lastFlag techFlag dbClass row st).revRecords from rfl, h2,
        rewriteAnd1_head] at hr
      rw [show (dState (dispatch teams lastFlag techFlag dbClass row st)).poss_id =
        (dispatch teams lastFlag techFlag dbClass row st).poss_id from rfl, h1] at hlt
      cases hh : st.revRecords.head? with
      | none => rw [hh] at hr; simp at hr
      | some h0 =>
        rw [hh] at hr
        simp only [Option.map_some'] at hr
        by_cases hid : h0.possession_id = st.poss_id
        · rw [if_pos hid] at hr
          have : r.possession_id = st.poss_id - 1 := by
            rw [← Option.some_inj.mp hr]
          omega
        · rw [if_neg hid] at hr
          have hr' : r = h0 := (Option.some_inj.mp hr).symm
          subst hr'
          exact h.head_lt_term r hh (lt_of_le_of_ne (h.head_le r hh) hid)
    · intro r hr
      rw [show (dState (dispatch teams lastFlag techFlag dbClass row st)).revRecords =
        (dispatch teams lastFlag techFlag dbClass row st).revRecords from rfl, h2] at hr
      exact rewriteAnd1_nonneg st.poss_id (st.poss_id - 1) row.team (by omega)
        st.revRecords h.recs_nonneg r hr
    · intro r hr
      rw [show (dState (dispatch teams lastFlag techFlag dbClass row st)).revRecords =
        (dispatch teams lastFlag techFlag dbClass row st).revRecords from rfl, h2] at hr
      exact rewriteAnd1_lastElem st.poss_id row.team hge1 st.revRecords h.first_zero r hr
    · show Adj boundaryOk (dispatch teams lastFlag techFlag dbClass row st).revRecords
      rw [h2]
      exact rewriteAnd1_boundary st.poss_id row.team st.revRecords h.boundary
    · intro hler
      rw [show (dState (dispatch teams lastFlag techFlag dbClass row st)).last_end_reason =
        (dispatch teams lastFlag techFlag dbClass row st).last_end_reason from rfl, h3] at hler
      simp at hler
    · intro hrec
      rw [show (dState (dispatch teams lastFlag techFlag dbClass row st)).revRecords =
        (dispatch teams lastFlag techFlag dbClass row st).revRecords from rfl, h2] at hrec
      have hlen := rewriteAnd1_length st.poss_id (st.poss_id - 1) row.team st.revRecords
      rw [hrec] at hlen
      have : st.revRecords = [] := List.length_eq_zero.mp hlen.symm
      have := h.empty_pid this
      omega

/-- Appending a terminator record and incrementing the counter keeps the
invariant. -/
theorem inv_push_end (m : TrackState) (hm : Inv m) (r : PRecord)
    (hpid : r.possession_id = m.poss_id) (hterm : TermOut r.outcome)
    (nt lt : Option String) :
    Inv { poss_id := m.poss_id + 1, poss_team := nt,
          revRecords := r :: m.revRecords,
          last_end_reason := r.outcome, last_end_team := lt } := by
  refine ⟨?_, ?_, ?_, ?_, ?_, ?_, ?_, ?_, ?_⟩
  · show (0 : Int) ≤ m.poss_id + 1
    have := hm.pid_nonneg; omega
  · show Adj idGe (r :: m.revRecords)
    cases hh : m.revRecords with
    | nil => exact adj_single r
    | cons h0 t =>
      refine adj_cons_cons.mpr ⟨?_, hh ▸ hm.mono⟩
      show h0.possession_id ≤ r.possession_id
      rw [hpid]
      exact hm.head_le h0 (by rw [hh]; rfl)
  · intro x hx
    have : x = r := (by simpa using hx : r = x).symm
    subst this
    show x.possession_id ≤ m.poss_id + 1
    omega
  · intro x hx _
    have : x = r := (by simpa using hx : r = x).symm
    subst this
    exact hterm
  · intro x hx
    rcases List.mem_cons.mp hx with h1 | h1
    · rw [h1, hpid]; exact hm.pid_nonneg
    · exact hm.recs_nonneg x h1
  · intro x hx
    cases hh : m.revRecords with
    | nil =>
      rw [hh] at hx
      have : x = r := (by simpa [lastElem] using hx : r = x).symm
      subst this
      rw [hpid]
      exact hm.empty_pid hh
    | cons h0 t =>
      rw [hh] at hx
      rw [lastElem_cons_cons] at hx
      exact hm.first_zero x (by rw [hh]; exact hx)
  · show Adj boundaryOk (r :: m.revRecords)
    cases hh : m.revRecords with
    | nil => exact adj_single r
    | cons h0 t =>
      refine adj_cons_cons.mpr ⟨?_, hh ▸ hm.boundary⟩
      intro hne
      rw [hpid] at hne
      have hle : h0.possession_id ≤ m.poss_id := hm.head_le h0 (by rw [hh]; rfl)
      exact hm.head_lt_term h0 (by rw [hh]; rfl) (lt_of_le_of_ne hle (fun hc => hne hc.symm))
  · intro _
    show (1 : Int) ≤ m.poss_id + 1
    have := hm.pid_nonneg; omega
  · intro hc; exact absurd hc (by simp)

/-- Appending a non-terminator record (counter unchanged, trackers either
kept or cleared) keeps the invariant. -/
theorem inv_push_noend (m : TrackState) (hm : Inv m) (r : PRecord)
    (hpid : r.possession_id = m.poss_id) (ptm lt' : Option String)
    (ler' : Option String) (hler : ler' = m.last_end_reason ∨ ler' = none) :
    Inv { poss_id := m.poss_id, poss_team := ptm, revRecords := r :: m.revRecords,
          last_end_reason := ler', last_end_team := lt' } := by
  refine ⟨?_, ?_, ?_, ?_, ?_, ?_, ?_, ?_, ?_⟩
  · exact hm.pid_nonneg
  · show Adj idGe (r :: m.revRecords)
    cases hh : m.revRecords with
    | nil => exact adj_single r
    | cons h0 t =>
      refine adj_cons_cons.mpr ⟨?_, hh ▸ hm.mono⟩
      show h0.possession_id ≤ r.possession_id
      rw [hpid]
      exact hm.head_le h0 (by rw [hh]; rfl)
  · intro x hx
    have : x = r := (by simpa using hx : r = x).symm
    subst this
    show x.possession_id ≤ m.poss_id
    omega
  · intro x hx hlt
    have : x = r := (by simpa using hx : r = x).symm
    subst this
    rw [hpid] at hlt
    exact absurd hlt (by simp)
  · intro x hx
    rcases List.mem_cons.mp hx with h1 | h1
    · rw [h1, hpid]; exact hm.pid_nonneg
    · exact hm.recs_nonneg x h1
  · intro x hx
    cases hh : m.revRecords with
    | nil =>
      rw [hh] at hx
      have : x = r := (by simpa [lastElem] using hx : r = x).symm
      subst this
      rw [hpid]
      exact hm.empty_pid hh
    | cons h0 t =>
      rw [hh] at hx
      rw [lastElem_cons_cons] at hx
      exact hm.first_zero x (by rw [hh]; exact hx)
  · show Adj boundaryOk (r :: m.revRecords)
    cases hh : m.revRecords with
    | nil => exact adj_single r
    | cons h0 t =>
      refine adj_cons_cons.mpr ⟨?_, hh ▸ hm.boundary⟩
      intro hne
      rw [hpid] at hne
      have hle : h0.possession_id ≤ m.poss_id := hm.head_le h0 (by rw [hh]; rfl)
      exact hm.head_lt_term h0 (by rw [hh]; rfl) (lt_of_le_of_ne hle (fun hc => hne hc.symm))
  · intro hler'
    rcases hler with h1 | h1
    · exact hm.madefg_ge_one (h1 ▸ hler')
    · rw [h1] at hler'; exact absurd hler' (by simp)
  · intro hc; exact absurd hc (by simp)

/-- One step of the state machine preserves the invariant. -/
theorem inv_step (teams : List String) (lastFlag techFlag : Bool) (dbClass : String)
    (row : PlayEvent) (st : TrackState) (h : Inv st) :
    Inv (stepEvent teams lastFlag techFlag dbClass row st) := by
  have hd := inv_dispatch teams lastFlag techFlag dbClass row st h
  have hspec := dispatch_spec teams lastFlag techFlag dbClass row st
  rw [stepEvent]
  by_cases hend : (dispatch teams lastFlag techFlag dbClass row st).end_poss = true
  · rw [if_pos hend]
    exact inv_push_end _ hd _ rfl (hspec.1 hend) _ _
  · rw [if_neg hend]
    by_cases hsafe : safeStr row.playType ∈ continuationSafe
    · rw [if_pos hsafe]
      exact inv_push_noend _ hd _ rfl _ _ _ (Or.inl rfl)
    · rw [if_neg hsafe]
      exact inv_push_noend _ hd _ rfl _ _ _ (Or.inr rfl)

/-- The invariant holds after any number of steps. -/
theorem inv_runSteps (teams : List String) (evs : List PlayEvent) :
    ∀ n, Inv (runSteps teams evs n)
  | 0 => inv_init
  | n + 1 => by
    rw [runSteps]
    cases hev : evs[n]? with
    | none => exact inv_runSteps teams evs n
    | some row => exact inv_step _ _ _ _ _ _ (inv_runSteps teams evs n)

/-- Each step appends exactly one record. -/
theorem step_revLength (teams : List String) (lastFlag techFlag : Bool) (dbClass : String)
    (row : PlayEvent) (st : TrackState) :
    (stepEvent teams lastFlag techFlag dbClass row st).revRecords.length =
      st.revRecords.length + 1 := by
  have hspec := dispatch_spec teams lastFlag techFlag dbClass row st
  have hdl : (dispatch teams lastFlag techFlag dbClass row st).revRecords.length =
      st.revRecords.length := by
    rcases hspec.2 with ⟨-, h2, -, -⟩ | ⟨-, -, h2, -, -⟩
    · rw [h2]
    · rw [h2, rewriteAnd1_length]
  rw [stepEvent]
  by_cases hend : (dispatch teams lastFlag techFlag dbClass row st).end_poss = true
  · rw [if_pos hend]; simp [hdl]
  · rw [if_neg hend]
    by_cases hsafe : safeStr row.playType ∈ continuationSafe
    · rw [if_pos hsafe]; simp [hdl]
    · rw [if_neg hsafe]; simp [hdl]

/-- After `n` steps, `min n (evs.length)` records have been emitted. -/
theorem runSteps_length (teams : List String) (evs : List PlayEvent) :
    ∀ n, (runSteps teams evs n).revRecords.length = min n evs.length
  | 0 => by simp [runSteps, initState]
  | n + 1 => by
    rw [runSteps]
    cases hev : evs[n]? with
    | none =>
      have hlen : evs.length ≤ n := by
        by_contra hc
        push_neg at hc
        exact absurd hev (by simp [List.getElem?_eq_getElem hc])
      rw [runSteps_length teams evs n]
      omega
    | some row =>
      have hlen : n < evs.length := by
        have := List.getElem?_eq_some.mp hev
        exact this.1
      rw [step_revLength, runSteps_length teams evs n]
      omega

/-! ### Properties of the sort key -/

theorem evLe_total (a b : PlayEvent) : evLe a b = true ∨ evLe b a = true := by
  simp only [evLe]
  split_ifs <;> simp only [decide_eq_true_eq] <;> omega

theorem evLe_trans (a b c : PlayEvent) (h1 : evLe a b = true) (h2 : evLe b c = true) :
    evLe a c = true := by
  simp only [evLe] at h1 h2 ⊢
  split_ifs at h1 h2 ⊢ <;> simp only [decide_eq_true_eq] at h1 h2 ⊢ <;> omega

theorem evLe_ids (a b : PlayEvent) (h1 : evLe a b = true) (h2 : evLe b a = true) :
    a.id = b.id := by
  simp only [evLe] at h1 h2
  split_ifs at h1 h2 <;> simp only [decide_eq_true_eq] at h1 h2 <;> omega

/-- **C7** (ordering determinism): for any two permutations of the same
multiset of events with pairwise-distinct ids, the sequence orderer produces
the identical ordered sequence. -/
theorem claim_ordering_deterministic (l₁ l₂ : List PlayEvent)
    (hperm : l₁.Perm l₂)
    (hids : l₁.Pairwise (fun a b => a.id ≠ b.id)) :
    orderEvents l₁ = orderEvents l₂ := by
  have hanti : ∀ a ∈ orderEvents l₁, ∀ b ∈ orderEvents l₁,
      evLe a b = true → evLe b a = true → a = b := by
    intro a ha b hb hab hba
    have ha' : a ∈ l₁ := (sortBy_perm evLe l₁).mem_iff.mp ha
    have hb' : b ∈ l₁ := (sortBy_perm evLe l₁).mem_iff.mp hb
    by_contra hne
    exact List.Pairwise.forall (fun x y h => Ne.symm h) hids ha' hb' hne (evLe_ids a b hab hba)
  exact sorted_perm_eq (orderEvents l₁) (orderEvents l₂)
    ((sortBy_perm evLe l₁).trans (hperm.trans (sortBy_perm evLe l₂).symm))
    (pairwise_sortBy evLe_total evLe_trans l₁)
    (pairwise_sortBy evLe_total evLe_trans l₂)
    hanti

/-! ### Consequences of the invariant -/

theorem adj_imp {R S : α → α → Prop} (h : ∀ a b, R a b → S a b) :
    ∀ l, Adj R l → Adj S l
  | [], _ => trivial
  | [_], _ => trivial
  | a :: b :: t, hadj => ⟨h a b hadj.1, adj_imp h (b :: t) hadj.2⟩

theorem intLe_total (a b : Int) : decide (a ≤ b) = true ∨ decide (b ≤ a) = true := by
  simp only [decide_eq_true_eq]; omega

theorem intLe_trans (a b c : Int) (h1 : decide (a ≤ b) = true)
    (h2 : decide (b ≤ c) = true) : decide (a ≤ c) = true := by
  simp only [decide_eq_true_eq] at h1 h2 ⊢; omega

theorem possUniqueIds_pairwise_lt (records : List PRecord) :
    List.Pairwise (fun a b : Int => a < b) (possUniqueIds records) := by
  have hle : (possUniqueIds records).Pairwise (fun a b : Int => a ≤ b) :=
    (pairwise_sortBy intLe_total intLe_trans _).imp (fun h => of_decide_eq_true h)
  have hnd : (possUniqueIds records).Nodup :=
    (sortBy_perm _ _).symm.nodup (uniqueFirst_nodup _)
  exact (hle.and hnd).imp (fun h => lt_of_le_of_ne h.1 h.2)

theorem possSummaries_ids (records : List PRecord) :
    (possSummaries records).map (·.possession_id) = possUniqueIds records := by
  rw [possSummaries, List.map_map]
  exact List.map_id'' (fun pid => rfl) _

theorem classify_ids_pairwise (records : List PRecord) :
    List.Pairwise (fun a b : Int => a < b)
      ((classifyPossessions records).map (·.possession_id)) := by
  have h1 : (possSummaries records).Pairwise
      (fun p q => p.possession_id < q.possession_id) := by
    have := possUniqueIds_pairwise_lt records
    rw [← possSummaries_ids records] at this
    exact (List.pairwise_map).mp this
  have h2 := h1.filter (fun p => decide (p.raw_outcome ≠ some "end_period"))
  exact (List.pairwise_map).mpr h2

theorem classify_ids_mem (records : List PRecord) (pid : Int)
    (h : pid ∈ (classifyPossessions records).map (·.possession_id)) :
    ∃ r ∈ records, r.possession_id = pid := by
  rw [List.mem_map] at h
  obtain ⟨p, hp, hpid⟩ := h
  rw [classifyPossessions, List.mem_filter] at hp
  have hp1 := hp.1
  rw [possSummaries, List.mem_map] at hp1
  obtain ⟨pid', hpid', hpmk⟩ := hp1
  have hpp : p.possession_id = pid' := by rw [← hpmk]
  have hpidIn : pid ∈ possUniqueIds records := by rw [← hpid, hpp]; exact hpid'
  have hin2 : pid ∈ uniqueFirst (records.map (·.possession_id)) :=
    (sortBy_perm _ _).mem_iff.mp hpidIn
  have hin3 : pid ∈ records.map (·.possession_id) := uniqueFirst_subset _ _ hin2
  rw [List.mem_map] at hin3
  obtain ⟨r, hr, hrpid⟩ := hin3
  exact ⟨r, hr, hrpid⟩

/-- **C10** (implicit): in the final record stream the first record of the
game carries possession id 0; at every change of possession id between
adjacent records the earlier record is a possession terminator (each
possession's group of records ends with its terminating event); and at a
possession-ending event the emitted record carries the id of the possession
the event terminates — the counter is incremented only after the append, so
the new record's id is the new counter value minus one. -/
theorem claim_terminator_carries_id (input : List PlayEvent) :
    (∀ r, (trackPossessions input).head? = some r → r.possession_id = 0) ∧
    Adj (fun a b => a.possession_id ≠ b.possession_id → TermOut a.outcome)
      (trackPossessions input) ∧
    (∀ (teams : List String) (lf tf : Bool) (dbc : String) (row : PlayEvent)
        (st : TrackState),
      (dispatch teams lf tf dbc row st).end_poss = true →
      ∃ r rest, (stepEvent teams lf tf dbc row st).revRecords = r :: rest ∧
        r.possession_id = (stepEvent teams lf tf dbc row st).poss_id - 1 ∧
        r.outcome = (dispatch teams lf tf dbc row st).outcome) := by
  have hinv := inv_runSteps (teamsOf (orderEvents input)) (orderEvents input)
    (orderEvents input).length
  refine ⟨?_, ?_, ?_⟩
  · intro r hr
    simp only [trackPossessions] at hr
    rw [head?_reverse_eq_lastElem] at hr
    exact hinv.first_zero r hr
  · simp only [trackPossessions]
    exact adj_imp (fun a b h hne => h (Ne.symm hne)) _ (adj_reverse hinv.boundary)
  · intro teams lf tf dbc row st hend
    simp only [stepEvent]
    rw [if_pos hend]
    exact ⟨_, _, rfl, by simp, rfl⟩

/-- A single-team game whose second and fourth possessions are `End Period`
artifacts: the ids surviving classification are `[1, 3]`. -/
def c2game : List PlayEvent :=
  [ { id := 1, gameId := 7, period := 1, secondsRemaining := 2,
      playType := some "End Period", playText := some "end of period", team := none },
    { id := 2, gameId := 7, period := 2, secondsRemaining := 100,
      playType := some "JumpShot", playText := some "a player makes layup", team := some "A" },
    { id := 3, gameId := 7, period := 2, secondsRemaining := 1,
      playType := some "End Period", playText := some "end of period", team := none },
    { id := 4, gameId := 7, period := 3, secondsRemaining := 100,
      playType := some "JumpShot", playText := some "a player makes layup", team := some "A" },
    { id := 5, gameId := 7, period := 3, secondsRemaining := 1,
      playType := some "End Game", playText := some "end of game", team := none } ]

/-- **C2, counterexample**: after the classifier drops the `end_period`
possessions of `c2game`, the surviving possession ids are `[1, 3]` — neither
gap-free nor starting at 0, refuting the claimed contiguity. -/
theorem claim_possession_ids_counterexample :
    (classifyPossessions (trackPossessions c2game)).map (·.possession_id) = [1, 3] ∧
    ([1, 3] : List Int) ≠ [0, 1] := by
  constructor
  · decide
  · decide

/-- **C2, amended**: the possession ids of the final record stream are
non-decreasing in event order (the and-one correction rewrites in place, so
even that step leaves the final stream monotone) and non-negative; after the
classifier drops the `end_period` possessions the surviving ids are strictly
increasing and non-negative, but — as the counterexample shows — neither
gap-free nor guaranteed to start at 0. -/
theorem claim_possession_ids_amended (input : List PlayEvent) :
    Adj (fun a b => a.possession_id ≤ b.possession_id) (trackPossessions input) ∧
    (∀ r ∈ trackPossessions input, 0 ≤ r.possession_id) ∧
    List.Pairwise (fun a b : Int => a < b)
      ((classifyPossessions (trackPossessions input)).map (·.possession_id)) ∧
    (∀ pid ∈ (classifyPossessions (trackPossessions input)).map (·.possession_id),
      0 ≤ pid) := by
  have hinv := inv_runSteps (teamsOf (orderEvents input)) (orderEvents input)
    (orderEvents input).length
  refine ⟨?_, ?_, classify_ids_pairwise _, ?_⟩
  · simp only [trackPossessions]
    exact adj_imp (fun a b h => h) _ (adj_reverse hinv.mono)
  · intro r hr
    simp only [trackPossessions, List.mem_reverse] at hr
    exact hinv.recs_nonneg r hr
  · intro pid hpid
    obtain ⟨r, hr, hrpid⟩ := classify_ids_mem _ pid hpid
    simp only [trackPossessions, List.mem_reverse] at hr
    exact hrpid ▸ hinv.recs_nonneg r hr

/-! ### C1: the and-one correction -/

/-- The and-one scenario game: `B` misses a jump shot, `A` takes the
defensive rebound, `A` makes a layup (possession 1 ends `made_fg`, owner
flips to `B`), then `A` makes the bonus free throw `"1 of 1"`. -/
def c1game : List PlayEvent :=
  [ { id := 1, gameId := 7, period := 1, secondsRemaining := 100,
      playType := some "JumpShot", playText := some "b player misses jumper",
      team := some "B" },
    { id := 2, gameId := 7, period := 1, secondsRemaining := 98,
      playType := some "Defensive Rebound", playText := some "a player defensive rebound",
      team := some "A" },
    { id := 3, gameId := 7, period := 1, secondsRemaining := 90,
      playType := some "JumpShot", playText := some "a player makes layup",
      team := some "A" },
    { id := 4, gameId := 7, period := 1, secondsRemaining := 88,
      playType := some "MadeFreeThrow", playText := some "a player makes free throw 1 of 1",
      team := some "A" } ]

/-- **C1**: if the current event is a non-technical `MadeFreeThrow` by team
`T`, the owner is set and differs from `T`, and the last terminator was a
`made_fg` by `T`, then the dispatch decrements the possession counter by
one, reassigns ownership to `T`, rewrites in place the most recent
contiguous trailing block of emitted records whose id equals the
pre-decrement counter (the `takeWhile` block of the newest-first store,
stopping at the first mismatch) down to the new id, and sets the terminator
reason to `and1_ft`.  In particular, in `c1game` the field-goal make by `A`
and the following `"1 of 1"` free throw by `A` collapse into the same
possession id. -/
theorem claim_and1_correction :
    (∀ (teams : List String) (lastFlag : Bool) (dbClass : String)
        (row : PlayEvent) (st : TrackState) (T : String),
      row.playType = some "MadeFreeThrow" →
      row.team = some T → T ≠ "" →
      st.poss_team ≠ none → st.poss_team ≠ some T →
      st.last_end_reason = some "made_fg" → st.last_end_team = some T →
      (dispatch teams lastFlag false dbClass row st).poss_id = st.poss_id - 1 ∧
      (dispatch teams lastFlag false dbClass row st).poss_team = some T ∧
      (dispatch teams lastFlag false dbClass row st).last_end_reason = some "and1_ft" ∧
      (dispatch teams lastFlag false dbClass row st).revRecords =
        (st.revRecords.takeWhile (fun r => decide (r.possession_id = st.poss_id))).map
            (fun r => { r with possession_id := st.poss_id - 1,
                               possession_team := some T })
          ++ st.revRecords.dropWhile (fun r => decide (r.possession_id = st.poss_id))) ∧
    (trackPossessions c1game).map (·.possession_id) = [0, 0, 1, 1] := by
  constructor
  · intro teams lastFlag dbClass row st T hpt hteam hT howner hdiff hler hlet
    have hptS : safeStr row.playType = "MadeFreeThrow" := by rw [hpt]; rfl
    have htr : truthy row.team = true := by rw [hteam]; simp [truthy, hT]
    have hmt : row.team ≠ st.poss_team := by
      rw [hteam]; exact fun hc => hdiff hc.symm
    have hlet' : st.last_end_team = row.team := by rw [hlet, hteam]
    have hrw : rewriteAnd1 st.poss_id (st.poss_id - 1) (some T) st.revRecords =
        (st.revRecords.takeWhile (fun r => decide (r.possession_id = st.poss_id))).map
            (fun r => { r with possession_id := st.poss_id - 1,
                               possession_team := some T })
          ++ st.revRecords.dropWhile (fun r => decide (r.possession_id = st.poss_id)) := by
      rw [rewriteAnd1_eq_takeWhile]
    simp only [dispatch, hptS, hteam, hler, hlet, ne_eq]
    rw [if_neg (by decide : ¬("MadeFreeThrow" = "Jumpball")),
      if_neg (by decide : ¬("MadeFreeThrow" ∈ fgTypes)),
      if_pos (trivial : True),
      if_neg (by simp : ¬((false : Bool) = true)),
      if_pos (show truthy (some T) = true ∧ ¬st.poss_team = none ∧
          ¬some T = st.poss_team ∧ True ∧ True from
        ⟨by simp [truthy, hT], howner, fun hc => hdiff hc.symm, trivial, trivial⟩)]
    by_cases hl : lastFlag = true
    · rw [if_pos hl]
      by_cases hm : isMade (safeTxt row.playText) = true
      · rw [if_pos hm]
        exact ⟨rfl, rfl, rfl, hrw⟩
      · rw [if_neg hm]
        exact ⟨rfl, rfl, rfl, hrw⟩
    · rw [if_neg hl]
      exact ⟨rfl, rfl, rfl, hrw⟩
  · decide

/-- The free-throw row of the and-one witness. -/
def c1row : PlayEvent :=
  { id := 4, gameId := 7, period := 1, secondsRemaining := 88,
    playType := some "MadeFreeThrow",
    playText := some "a player makes free throw 1 of 1", team := some "A" }

/-- The tracker state of the and-one witness: possession 2 owned by `B`
right after a `made_fg` terminator by `A`. -/
def c1state : TrackState :=
  { poss_id := 2, poss_team := some "B",
    revRecords := [ { play_id := 3, gameId := 7, possession_id := 1,
                      possession_team := some "A", play_type := "JumpShot",
                      play_text := some "a player makes layup", team := some "A",
                      outcome := some "made_fg" } ],
    last_end_reason := some "made_fg", last_end_team := some "A" }

theorem claim_and1_correction_witness :
    (dispatch [] false false "end_possession" c1row c1state).poss_id = c1state.poss_id - 1 ∧
    (dispatch [] false false "end_possession" c1row c1state).poss_team = some "A" ∧
    (dispatch [] false false "end_possession" c1row c1state).last_end_reason =
      some "and1_ft" ∧
    (dispatch [] false false "end_possession" c1row c1state).revRecords =
      (c1state.revRecords.takeWhile
          (fun r => decide (r.possession_id = c1state.poss_id))).map
          (fun r => { r with possession_id := c1state.poss_id - 1,
                             possession_team := some "A" })
        ++ c1state.revRecords.dropWhile
            (fun r => decide (r.possession_id = c1state.poss_id)) :=
  claim_and1_correction.1 [] false "end_possession" c1row c1state "A" rfl rfl
    (by decide) (by decide) (by decide) rfl rfl

/-! ### C3: technical free throws are possession-neutral -/

/-- Unfolding one step of the run at a position that holds an event. -/
theorem runSteps_succ (teams : List String) (evs : List PlayEvent) (n : Nat)
    (row : PlayEvent) (hev : evs[n]? = some row) :
    runSteps teams evs (n + 1) =
      stepEvent teams (lastFTFlagAt evs n) (techFTFlagAt evs n) (dbRebClassAt evs n)
        row (runSteps teams evs n) := by
  rw [runSteps, hev]

/-- A technically-flagged free throw dispatches to `tech_ft` with no state
change. -/
theorem dispatch_tech (teams : List String) (lastFlag : Bool) (dbClass : String)
    (row : PlayEvent) (st : TrackState)
    (hpt : row.playType = some "MadeFreeThrow") :
    dispatch teams lastFlag true dbClass row st =
      { outcome := some "tech_ft", end_poss := false, next_team := none,
        poss_id := st.poss_id, poss_team := st.poss_team, revRecords := st.revRecords,
        last_end_reason := st.last_end_reason, last_end_team := st.last_end_team } := by
  have hptS : safeStr row.playType = "MadeFreeThrow" := by rw [hpt]; rfl
  simp only [dispatch, hptS]
  rw [if_neg (by decide : ¬("MadeFreeThrow" = "Jumpball")),
    if_neg (by decide : ¬("MadeFreeThrow" ∈ fgTypes)),
    if_pos (trivial : True), if_pos (trivial : True)]

/-- **C3**: a `MadeFreeThrow` classified as technical gets outcome
`tech_ft` and changes no possession state across the event: the possession
id is not incremented, the owner is unchanged, and the and-one trackers are
not cleared; the only effect is the appended `tech_ft` record. -/
theorem claim_tech_ft_frame (teams : List String) (evs : List PlayEvent) (n : Nat)
    (row : PlayEvent) (hev : evs[n]? = some row)
    (hpt : row.playType = some "MadeFreeThrow")
    (htech : techFTFlagAt evs n = true) :
    (runSteps teams evs (n + 1)).poss_id = (runSteps teams evs n).poss_id ∧
    (runSteps teams evs (n + 1)).poss_team = (runSteps teams evs n).poss_team ∧
    (runSteps teams evs (n + 1)).last_end_reason =
      (runSteps teams evs n).last_end_reason ∧
    (runSteps teams evs (n + 1)).last_end_team = (runSteps teams evs n).last_end_team ∧
    (runSteps teams evs (n + 1)).revRecords =
      { play_id := row.id, gameId := row.gameId,
        possession_id := (runSteps teams evs n).poss_id,
        possession_team := (runSteps teams evs n).poss_team,
        play_type := "MadeFreeThrow", play_text := row.playText,
        team := row.team, outcome := some "tech_ft" }
        :: (runSteps teams evs n).revRecords := by
  have hptS : safeStr row.playType = "MadeFreeThrow" := by rw [hpt]; rfl
  rw [runSteps_succ teams evs n row hev, htech]
  rw [show stepEvent teams (lastFTFlagAt evs n) true (dbRebClassAt evs n) row
      (runSteps teams evs n) =
    { poss_id := (runSteps teams evs n).poss_id,
      poss_team := (runSteps teams evs n).poss_team,
      revRecords :=
        { play_id := row.id, gameId := row.gameId,
          possession_id := (runSteps teams evs n).poss_id,
          possession_team := (runSteps teams evs n).poss_team,
          play_type := "MadeFreeThrow", play_text := row.playText,
          team := row.team, outcome := some "tech_ft" }
          :: (runSteps teams evs n).revRecords,
      last_end_reason := (runSteps teams evs n).last_end_reason,
      last_end_team := (runSteps teams evs n).last_end_team } from ?_]
  · exact ⟨rfl, rfl, rfl, rfl, rfl⟩
  · simp only [stepEvent, dispatch_tech teams (lastFTFlagAt evs n) (dbRebClassAt evs n)
      row (runSteps teams evs n) hpt]
    rw [if_neg (by simp : ¬((false : Bool) = true)),
      if_pos (show safeStr row.playType ∈ continuationSafe by rw [hptS]; decide)]
    simp [hptS]

/-! ### C4: the technical-free-throw scan -/

/-- Same clock tick: a technical foul, then a substitution, then the free
throw.  The claim's skip set would reach the `TechnicalFoul`; the code's
scan stops at the substitution. -/
def c4aevs : List PlayEvent :=
  [ { id := 1, gameId := 7, period := 1, secondsRemaining := 50,
      playType := some "TechnicalFoul", playText := some "technical foul on b",
      team := some "B" },
    { id := 2, gameId := 7, period := 1, secondsRemaining := 50,
      playType := some "Substitution", playText := some "x subbing in for a",
      team := some "A" },
    { id := 3, gameId := 7, period := 1, secondsRemaining := 50,
      playType := some "MadeFreeThrow",
      playText := some "a player makes free throw 1 of 1", team := some "A" } ]

/-- **C4, counterexample**: in `c4aevs` the free throw at position 2 has a
`TechnicalFoul` two steps back at the same clock with only a `Substitution`
in between — an instance of the claim — yet the classifier does *not* mark
it technical, because the scan breaks at the substitution instead of
skipping it. -/
theorem claim_tech_classifier_counterexample :
    techFTFlagAt c4aevs 2 = false ∧
    (∃ tev, c4aevs[0]? = some tev ∧ strContains (safeStr tev.playType) "Technical" = true ∧
      tev.period = 1 ∧ tev.secondsRemaining = 50) ∧
    (∃ mid, c4aevs[1]? = some mid ∧ safeStr mid.playType = "Substitution" ∧
      mid.period = 1 ∧ mid.secondsRemaining = 50) ∧
    (∃ row, c4aevs[2]? = some row ∧ row.playType = some "MadeFreeThrow" ∧
      row.period = 1 ∧ row.secondsRemaining = 50) := by
  refine ⟨by decide, ⟨_, rfl, by decide, by decide, by decide⟩,
    ⟨_, rfl, by decide, by decide, by decide⟩, ⟨_, rfl, by decide, by decide, by decide⟩⟩

/-- The scan succeeds through a run of same-clock free throws and personal
fouls ending at a `TechnicalFoul`-tagged event. -/
theorem techScan_through (row : PlayEvent) :
    ∀ (mid : List PlayEvent) (tev : PlayEvent) (rest : List PlayEvent),
      (∀ e ∈ mid, e.period = row.period ∧ e.secondsRemaining = row.secondsRemaining ∧
        (e.playType = some "MadeFreeThrow" ∨ e.playType = some "PersonalFoul")) →
      tev.period = row.period → tev.secondsRemaining = row.secondsRemaining →
      strContains (safeStr tev.playType) "Technical" = true →
      techScan row (mid ++ tev :: rest) = true
  | [], tev, rest, _, hp, hs, ht => by
    simp only [List.nil_append, techScan]
    rw [if_neg (not_not_intro hp), if_neg (not_not_intro hs), if_pos ht]
  | e :: mid', tev, rest, hmid, hp, hs, ht => by
    have he := hmid e (List.mem_cons_self e mid')
    have hnotech : ¬strContains (safeStr e.playType) "Technical" = true := by
      rcases he.2.2 with h | h <;> rw [h] <;> decide
    simp only [List.cons_append, techScan]
    rw [if_neg (not_not_intro he.1), if_neg (not_not_intro he.2.1),
      if_neg hnotech, if_pos he.2.2]
    exact techScan_through row mid' tev rest
      (fun x hx => hmid x (List.mem_cons_of_mem e hx)) hp hs ht

/-- **C4, amended**: if the backward same-clock, same-period scan (bounded
to the 5 nearest predecessors) reaches a `TechnicalFoul`-tagged event with
only *other free throws and personal fouls* in between — substitutions and
TV-timeout markers are **not** skipped; they terminate the scan — then the
classifier marks the free throw technical. -/
theorem claim_tech_classifier_amended (evs : List PlayEvent) (pos j : Nat)
    (row tev : PlayEvent)
    (hrow : evs[pos]? = some row)
    (htev : evs[j]? = some tev)
    (hj : j < pos) (hwin : pos - j ≤ 5)
    (hclock : ∀ k, j ≤ k → k < pos → ∀ e, evs[k]? = some e →
      e.period = row.period ∧ e.secondsRemaining = row.secondsRemaining)
    (hmid : ∀ k, j < k → k < pos → ∀ e, evs[k]? = some e →
      e.playType = some "MadeFreeThrow" ∨ e.playType = some "PersonalFoul")
    (htech : strContains (safeStr tev.playType) "Technical" = true) :
    techFTFlagAt evs pos = true := by
  obtain ⟨hposlt, -⟩ := List.getElem?_eq_some.mp hrow
  have hposlen : pos ≤ evs.length := Nat.le_of_lt hposlt
  obtain ⟨mid, rest, hwineq, hmidmem⟩ :=
    window_decomp evs pos j 5 tev htev hj hposlen hwin
  have htevp := hclock j (Nat.le_refl j) hj tev htev
  simp only [techFTFlagAt, hrow]
  rw [hwineq]
  refine techScan_through row mid tev rest ?_ htevp.1 htevp.2 htech
  intro e he
  obtain ⟨k, hk1, hk2, hke⟩ := hmidmem e he
  obtain ⟨hp, hs⟩ := hclock k (Nat.le_of_lt hk1) hk2 e hke
  exact ⟨hp, hs, hmid k hk1 hk2 e hke⟩

/-- Same clock tick: a technical foul, a personal foul, then the free
throw — the code's actual skip set. -/
def c4bevs : List PlayEvent :=
  [ { id := 1, gameId := 7, period := 1, secondsRemaining := 50,
      playType := some "TechnicalFoul", playText := some "technical foul on b",
      team := some "B" },
    { id := 2, gameId := 7, period := 1, secondsRemaining := 50,
      playType := some "PersonalFoul", playText := some "personal foul on b",
      team := some "B" },
    { id := 3, gameId := 7, period := 1, secondsRemaining := 50,
      playType := some "MadeFreeThrow",
      playText := some "a player makes free throw 1 of 1", team := some "A" } ]

theorem claim_tech_classifier_amended_witness : techFTFlagAt c4bevs 2 = true := by
  refine claim_tech_classifier_amended c4bevs 2 0 _ _ rfl rfl
    (by omega) (by omega) ?_ ?_ (by decide)
  · intro k hk1 hk2 e he
    have hk : k = 0 ∨ k = 1 := by omega
    rcases hk with rfl | rfl
    · have : e = c4bevs[0] := by
        have := he
        simp only [c4bevs] at this ⊢
        exact (Option.some_inj.mp this).symm
      rw [this]; exact ⟨by decide, by decide⟩
    · have : e = c4bevs[1] := by
        have := he
        simp only [c4bevs] at this ⊢
        exact (Option.some_inj.mp this).symm
      rw [this]; exact ⟨by decide, by decide⟩
  · intro k hk1 hk2 e he
    have hk : k = 1 := by omega
    subst hk
    have : e = c4bevs[1] := by
      have := he
      simp only [c4bevs] at this ⊢
      exact (Option.some_inj.mp this).symm
    rw [this]; right; decide

/-! ### C5: the last-free-throw flag of the final event -/

/-- A one-event game whose only (hence final) event is a made free throw
with text `"1 of 2"`. -/
def c5evs : List PlayEvent :=
  [ { id := 1, gameId := 7, period := 2, secondsRemaining := 0,
      playType := some "MadeFreeThrow",
      playText := some "a player makes free throw 1 of 2", team := some "A" } ]

/-- **C5, counterexample**: the final event of `c5evs` is a
`MadeFreeThrow`, yet the classifier does not flag it as the last free
throw of its trip: its text carries the `"M of N"` pattern `1 of 2` with
`M ≠ N`, and that branch takes precedence over the final-event rule. -/
theorem claim_last_ft_final_counterexample :
    lastFTFlagAt c5evs 0 = false ∧
    c5evs.length = 1 ∧
    (∃ row, c5evs[0]? = some row ∧ row.playType = some "MadeFreeThrow") :=
  ⟨by decide, by decide, ⟨_, rfl, by decide⟩⟩

/-- **C5, amended**: the final event of the game, if a `MadeFreeThrow`, is
flagged last *when its text has no `"M of N"` pattern*; when the pattern is
present the flag is `M = N` regardless of position in the game. -/
theorem claim_last_ft_final_amended (evs : List PlayEvent) (pos : Nat)
    (row : PlayEvent) (hrow : evs[pos]? = some row)
    (hlast : pos + 1 = evs.length)
    (_hpt : row.playType = some "MadeFreeThrow") :
    (matchMofN (safeTxt row.playText) = none → lastFTFlagAt evs pos = true) ∧
    (∀ m n : Nat, matchMofN (safeTxt row.playText) = some (m, n) →
      lastFTFlagAt evs pos = (m == n)) := by
  have hnone : evs[pos + 1]? = none := List.getElem?_eq_none (by omega)
  constructor
  · intro hmatch
    simp only [lastFTFlagAt, hrow, hmatch, hnone]
  · intro m n hmatch
    simp only [lastFTFlagAt, hrow, hmatch]

/-- A one-event game whose only event is a legacy-format made free throw
(no `"M of N"` pattern). -/
def c5bevs : List PlayEvent :=
  [ { id := 1, gameId := 7, period := 2, secondsRemaining := 0,
      playType := some "MadeFreeThrow",
      playText := some "a player made free throw.", team := some "A" } ]

theorem claim_last_ft_final_amended_witness : lastFTFlagAt c5bevs 0 = true :=
  (claim_last_ft_final_amended c5bevs 0 _ rfl rfl rfl).1 (by decide)

/-! ### C6: same-team dead-ball rebounds -/

/-- An event the dead-ball-rebound scan steps over: a substitution, TV
timeout or empty play type, or any play type outside the branches the scan
recognises (free throws, field-goal attempts, turnovers, personal fouls). -/
def dbSkipOk (e : PlayEvent) : Prop :=
  safeStr e.playType = "Substitution" ∨ safeStr e.playType = "Official TV Timeout" ∨
  safeStr e.playType = "" ∨
  (safeStr e.playType ≠ "MadeFreeThrow" ∧ safeStr e.playType ∉ fgTypes ∧
   strContains (safeStr e.playType) "Turnover" = false ∧
   safeStr e.playType ≠ "PersonalFoul")

theorem dbScan_skip (row : PlayEvent) (e : PlayEvent) (b : Bool)
    (rest : List (PlayEvent × Bool)) (hper : e.period = row.period)
    (hskip : dbSkipOk e) :
    dbScan row ((e, b) :: rest) = dbScan row rest := by
  simp only [dbScan]
  rw [if_neg (not_not_intro hper)]
  by_cases hc1 : safeStr e.playType = "Substitution" ∨
      safeStr e.playType = "Official TV Timeout" ∨ safeStr e.playType = ""
  · rw [if_pos hc1]
  · rw [if_neg hc1]
    have h4 : safeStr e.playType ≠ "MadeFreeThrow" ∧ safeStr e.playType ∉ fgTypes ∧
        strContains (safeStr e.playType) "Turnover" = false ∧
        safeStr e.playType ≠ "PersonalFoul" := by
      rcases hskip with h | h | h | h
      · exact absurd (Or.inl h) hc1
      · exact absurd (Or.inr (Or.inl h)) hc1
      · exact absurd (Or.inr (Or.inr h)) hc1
      · exact h
    rw [if_neg h4.1, if_neg h4.2.1,
      if_neg (show ¬(strContains (safeStr e.playType) "Turnover" = true ∨
          safeStr e.playType = "PersonalFoul") from fun hc => hc.elim
        (fun hh => by rw [h4.2.2.1] at hh; exact Bool.false_ne_true hh) h4.2.2.2)]

theorem fg_not_skipish (s : String) (hs : s ∈ fgTypes) :
    ¬(s = "Substitution" ∨ s = "Official TV Timeout" ∨ s = "") ∧
    s ≠ "MadeFreeThrow" := by
  fin_cases hs <;> exact ⟨by decide, by decide⟩

/-- The dead-ball-rebound scan classifies `same_team_fg_miss` when, after
stepping over skippable events, it reaches a missed field-goal attempt by
the rebounding team (both teams non-null). -/
theorem dbScan_same_team (row tev : PlayEvent) :
    ∀ (mid : List (PlayEvent × Bool)) (b : Bool) (rest : List (PlayEvent × Bool)),
      (∀ p ∈ mid, p.1.period = row.period ∧ dbSkipOk p.1) →
      tev.period = row.period →
      (∃ s, tev.playType = some s ∧ s ∈ fgTypes) →
      isMissed (safeTxt tev.playText) = true →
      tev.team.isSome = true → row.team.isSome = true → tev.team = row.team →
      dbScan row (mid ++ (tev, b) :: rest) = "same_team_fg_miss"
  | [], b, rest, _, hper, hfg, hmiss, hts, hrs, hteq => by
    obtain ⟨s, hs1, hs2⟩ := hfg
    have hpts : safeStr tev.playType = s := by rw [hs1]; rfl
    have hns := fg_not_skipish s hs2
    simp only [List.nil_append, dbScan]
    rw [if_neg (not_not_intro hper), hpts, if_neg hns.1, if_neg hns.2,
      if_pos hs2, if_pos hmiss, if_pos ⟨hts, hrs, hteq⟩]
  | p :: mid', b, rest, hmid, hper, hfg, hmiss, hts, hrs, hteq => by
    have hp := hmid p (List.mem_cons_self p mid')
    have hcons : (p :: mid') ++ (tev, b) :: rest = p :: (mid' ++ (tev, b) :: rest) :=
      List.cons_append p mid' _
    rw [hcons]
    obtain ⟨e, bb⟩ := p
    rw [dbScan_skip row e bb _ hp.1 hp.2]
    exact dbScan_same_team row tev mid' b rest
      (fun q hq => hmid q (List.mem_cons_of_mem _ hq)) hper hfg hmiss hts hrs hteq

/-- A dead-ball-rebound step with a non-ending classification leaves the
possession counter and owner unchanged. -/
theorem stepEvent_dbr_noend (teams : List String) (lf tf : Bool) (dbc : String)
    (row : PlayEvent) (st : TrackState)
    (hpt : row.playType = some "Dead Ball Rebound")
    (hdb : ¬(dbc = "end_possession")) :
    (stepEvent teams lf tf dbc row st).poss_id = st.poss_id ∧
    (stepEvent teams lf tf dbc row st).poss_team = st.poss_team := by
  have hptS : safeStr row.playType = "Dead Ball Rebound" := by rw [hpt]; rfl
  simp only [stepEvent, dispatch, hptS]
  rw [if_neg (by decide : ¬("Dead Ball Rebound" = "Jumpball")),
    if_neg (by decide : ¬("Dead Ball Rebound" ∈ fgTypes)),
    if_neg (by decide : ¬("Dead Ball Rebound" = "MadeFreeThrow")),
    if_neg (by decide : ¬(strContains "Dead Ball Rebound" "Turnover" = true)),
    if_neg (by decide : ¬("Dead Ball Rebound" = "Steal")),
    if_neg (by decide : ¬("Dead Ball Rebound" = "Defensive Rebound")),
    if_neg (by decide : ¬("Dead Ball Rebound" = "Offensive Rebound")),
    if_pos (trivial : True), if_neg hdb,
    if_neg (by simp :
      ¬(({ outcome := some "dead_ball_rebound", end_poss := false, next_team := none,
           poss_id := st.poss_id, poss_team := st.poss_team, revRecords := st.revRecords,
           last_end_reason := st.last_end_reason,
           last_end_team := st.last_end_team } : Dispatch).end_poss = true)),
    if_neg (by decide : ¬("Dead Ball Rebound" ∈ continuationSafe))]
  exact ⟨rfl, rfl⟩

/-- **C6**: a `Dead Ball Rebound` by team `A` whose backward scan (same
period, at most the 9 nearest predecessors) reaches — stepping only over
skippable events — a field-goal-type miss also by `A` (both team fields
non-null) is classified `same_team_fg_miss`, and the state machine does not
end the possession there: possession id and owner are unchanged across the
event. -/
theorem claim_dbreb_same_team (teams : List String) (evs : List PlayEvent)
    (pos j : Nat) (row tev : PlayEvent) (A : String)
    (hrow : evs[pos]? = some row)
    (hpt : row.playType = some "Dead Ball Rebound")
    (hteamR : row.team = some A)
    (htev : evs[j]? = some tev)
    (hj : j < pos) (hwin : pos - j ≤ 9)
    (hper : ∀ k, j ≤ k → k < pos → ∀ e, evs[k]? = some e → e.period = row.period)
    (hmid : ∀ k, j < k → k < pos → ∀ e, evs[k]? = some e → dbSkipOk e)
    (hfg : ∃ s, tev.playType = some s ∧ s ∈ fgTypes)
    (hmiss : isMissed (safeTxt tev.playText) = true)
    (hteamT : tev.team = some A) :
    dbRebClassAt evs pos = "same_team_fg_miss" ∧
    (runSteps teams evs (pos + 1)).poss_id = (runSteps teams evs pos).poss_id ∧
    (runSteps teams evs (pos + 1)).poss_team = (runSteps teams evs pos).poss_team := by
  obtain ⟨hposlt, -⟩ := List.getElem?_eq_some.mp hrow
  have htevE : evs.enum[j]? = some (j, tev) := by
    rw [List.getElem?_enum, htev]; rfl
  have hclass : dbRebClassAt evs pos = "same_team_fg_miss" := by
    obtain ⟨mid, rest, hwineq, hmidmem⟩ :=
      window_decomp evs.enum pos j 9 (j, tev) htevE hj
        (by rw [List.enum_length]; omega) hwin
    simp only [dbRebClassAt, hrow]
    rw [hwineq, List.map_append, List.map_cons]
    refine dbScan_same_team row tev (mid.map fun p => (p.2, lastFTFlagAt evs p.1))
      (lastFTFlagAt evs j) _ ?_ (hper j (Nat.le_refl j) hj tev htev) hfg hmiss
      (by rw [hteamT]; rfl) (by rw [hteamR]; rfl) (by rw [hteamT, hteamR])
    intro p hp
    rw [List.mem_map] at hp
    obtain ⟨q, hq, hqp⟩ := hp
    obtain ⟨k, hk1, hk2, hke⟩ := hmidmem q hq
    rw [List.getElem?_enum] at hke
    cases hevk : evs[k]? with
    | none => rw [hevk] at hke; exact absurd hke (by simp)
    | some e =>
      rw [hevk] at hke
      have hqe : q = (k, e) := by
        simpa using hke.symm
      subst hqe
      rw [← hqp]
      exact ⟨hper k (Nat.le_of_lt hk1) hk2 e hevk, hmid k hk1 hk2 e hevk⟩
  refine ⟨hclass, ?_⟩
  rw [runSteps_succ teams evs pos row hrow, hclass]
  exact stepEvent_dbr_noend teams _ _ _ row _ hpt (by decide)

/-- The same-team dead-ball-rebound scenario: a missed jump shot by `A`
followed by a dead-ball rebound by `A`. -/
def c6evs : List PlayEvent :=
  [ { id := 1, gameId := 7, period := 1, secondsRemaining := 100,
      playType := some "JumpShot", playText := some "a player misses jumper",
      team := some "A" },
    { id := 2, gameId := 7, period := 1, secondsRemaining := 95,
      playType := some "Dead Ball Rebound", playText := some "a deadball team rebound",
      team := some "A" } ]

theorem claim_dbreb_same_team_witness :
    dbRebClassAt c6evs 1 = "same_team_fg_miss" ∧
    (runSteps ["A"] c6evs 2).poss_id = (runSteps ["A"] c6evs 1).poss_id ∧
    (runSteps ["A"] c6evs 2).poss_team = (runSteps ["A"] c6evs 1).poss_team := by
  refine claim_dbreb_same_team ["A"] c6evs 1 0 _ _ "A" rfl rfl rfl rfl
    (by omega) (by omega) ?_ ?_ ⟨"JumpShot", rfl, by decide⟩ (by decide) rfl
  · intro k hk1 hk2 e he
    have hk : k = 0 := by omega
    subst hk
    have he' : e = c6evs[0] := by
      have := he
      simp only [c6evs] at this ⊢
      exact (Option.some_inj.mp this).symm
    rw [he']
    decide
  · intro k hk1 hk2 e he
    omega

/-! ### C8: the four-factors possession estimate -/

/-- A game log consisting of a single offensive rebound by `A`. -/
def c8orb : List PlayEvent :=
  [ { id := 1, gameId := 7, period := 1, secondsRemaining := 50,
      playType := some "Offensive Rebound",
      playText := some "a team offensive rebound", team := some "A" } ]

/-- **C8, counterexample**: with a single `Offensive Rebound` event and
nothing else, team `A`'s possession estimate
`FGA - ORB + TOV + 0.475 * FTA = 0 - 1 + 0 + 0 = -1` is negative. -/
theorem claim_four_factors_counterexample :
    (computeFF c8orb "A").Possessions < 0 ∧
    (computeFF c8orb "A").Possessions = -1 := by
  have hP : (computeFF c8orb "A").Possessions =
      ((computeFF c8orb "A").FGA : ℚ) - ((computeFF c8orb "A").ORB : ℚ) +
        ((computeFF c8orb "A").TOV : ℚ) +
        (19 / 40 : ℚ) * ((computeFF c8orb "A").FTA : ℚ) := rfl
  have h1 : (computeFF c8orb "A").FGA = 0 := by decide
  have h2 : (computeFF c8orb "A").ORB = 1 := by decide
  have h3 : (computeFF c8orb "A").TOV = 0 := by decide
  have h4 : (computeFF c8orb "A").FTA = 0 := by decide
  rw [hP, h1, h2, h3, h4]
  norm_num

/-- **C8, amended**: the possession estimate is non-negative whenever the
team's offensive-rebound count does not exceed `FGA + TOV` (in particular
whenever it has no offensive rebounds); and for a game with no free-throw
and no rebound events it equals `FGA + TOV` exactly. -/
theorem claim_four_factors_amended (evs : List PlayEvent) (team : String) :
    ((computeFF evs team).ORB ≤ (computeFF evs team).FGA + (computeFF evs team).TOV →
      0 ≤ (computeFF evs team).Possessions) ∧
    ((∀ e ∈ evs, e.playType ≠ some "MadeFreeThrow" ∧
        e.playType ≠ some "Offensive Rebound" ∧
        e.playType ≠ some "Defensive Rebound" ∧
        e.playType ≠ some "Dead Ball Rebound") →
      (computeFF evs team).Possessions =
        ((computeFF evs team).FGA : ℚ) + ((computeFF evs team).TOV : ℚ)) := by
  have hP : (computeFF evs team).Possessions =
      ((computeFF evs team).FGA : ℚ) - ((computeFF evs team).ORB : ℚ) +
        ((computeFF evs team).TOV : ℚ) +
        (19 / 40 : ℚ) * ((computeFF evs team).FTA : ℚ) := rfl
  constructor
  · intro h
    rw [hP]
    have h1 : ((computeFF evs team).ORB : ℚ) ≤
        ((computeFF evs team).FGA : ℚ) + ((computeFF evs team).TOV : ℚ) := by
      exact_mod_cast h
    have h2 : (0 : ℚ) ≤ (19 / 40 : ℚ) * ((computeFF evs team).FTA : ℚ) := by
      positivity
    linarith
  · intro h
    have horb : (computeFF evs team).ORB = 0 := by
      show ((evs.filter (fun e => decide (e.team = some team))).filter
        (fun e => decide (e.playType = some "Offensive Rebound"))).length = 0
      rw [List.length_eq_zero, List.filter_eq_nil]
      intro e he
      have := (h e (List.mem_of_mem_filter he)).2.1
      simpa using this
    have hfta : (computeFF evs team).FTA = 0 := by
      show ((evs.filter (fun e => decide (e.team = some team))).filter
        (fun e => decide (e.playType = some "MadeFreeThrow"))).length = 0
      rw [List.length_eq_zero, List.filter_eq_nil]
      intro e he
      have := (h e (List.mem_of_mem_filter he)).1
      simpa using this
    rw [hP, horb, hfta]
    norm_num

/-- A game log with one made jump shot and one turnover by `A` and no
free-throw or rebound events. -/
def c8bevs : List PlayEvent :=
  [ { id := 1, gameId := 7, period := 1, secondsRemaining := 50,
      playType := some "JumpShot", playText := some "a player makes layup",
      team := some "A" },
    { id := 2, gameId := 7, period := 1, secondsRemaining := 40,
      playType := some "LostBallTurnover", playText := some "a player turnover",
      team := some "A" } ]

theorem claim_four_factors_amended_witness :
    (0 : ℚ) ≤ (computeFF c8bevs "A").Possessions ∧
    (computeFF c8bevs "A").Possessions =
      ((computeFF c8bevs "A").FGA : ℚ) + ((computeFF c8bevs "A").TOV : ℚ) :=
  ⟨(claim_four_factors_amended c8bevs "A").1 (by decide),
   (claim_four_factors_amended c8bevs "A").2 (by decide)⟩

/-! ### C9: games with no team values -/

/-- A one-event game whose only event has a null team. -/
def c9evs : List PlayEvent :=
  [ { id := 1, gameId := 7, period := 1, secondsRemaining := 50,
      playType := some "JumpShot", playText := some "someone makes layup",
      team := none } ]

/-- **C9, counterexample**: every event of `c9evs` has a null team, yet the
state machine's output is not empty — it emits one record for the event. -/
theorem claim_null_teams_counterexample :
    (∀ e ∈ c9evs, e.team = none) ∧
    trackPossessions c9evs ≠ [] ∧
    (trackPossessions c9evs).length = 1 := by
  refine ⟨by decide, by decide, by decide⟩

/-- The output always has one record per input event. -/
theorem trackPossessions_length (input : List PlayEvent) :
    (trackPossessions input).length = input.length := by
  simp only [trackPossessions, List.length_reverse]
  rw [runSteps_length]
  have hlen : (orderEvents input).length = input.length :=
    (sortBy_perm evLe input).length_eq
  omega

set_option maxHeartbeats 2000000 in
/-- With no teams in the team list and a null acting team, the dispatch
keeps a null owner, proposes no next owner, and leaves the records alone. -/
theorem dispatch_null (lf tf : Bool) (dbc : String) (row : PlayEvent)
    (st : TrackState) (hteam : row.team = none) (hpt0 : st.poss_team = none) :
    (dispatch [] lf tf dbc row st).poss_team = none ∧
    (dispatch [] lf tf dbc row st).next_team = none ∧
    (dispatch [] lf tf dbc row st).revRecords = st.revRecords := by
  simp only [dispatch, hteam, hpt0]
  split_ifs <;> simp_all [truthy, otherTeam]

/-- With all-null teams the run keeps a null owner and emits only records
with a null possession team. -/
theorem runSteps_null_teams (evs : List PlayEvent)
    (hnull : ∀ e ∈ evs, e.team = none) :
    ∀ n, (runSteps [] evs n).poss_team = none ∧
      ∀ r ∈ (runSteps [] evs n).revRecords, r.possession_team = none
  | 0 => ⟨rfl, by simp [runSteps, initState]⟩
  | n + 1 => by
    obtain ⟨ih1, ih2⟩ := runSteps_null_teams evs hnull n
    rw [runSteps]
    cases hev : evs[n]? with
    | none => exact ⟨ih1, ih2⟩
    | some row =>
      have hrteam : row.team = none := by
        refine hnull row ?_
        exact List.mem_iff_getElem?.mpr ⟨n, hev⟩
      obtain ⟨hd1, hd2, hd3⟩ :=
        dispatch_null (lastFTFlagAt evs n) (techFTFlagAt evs n) (dbRebClassAt evs n)
          row (runSteps [] evs n) hrteam ih1
      simp only [stepEvent]
      split_ifs with h1 h2
      · refine ⟨hd2, ?_⟩
        intro r hr
        rcases List.mem_cons.mp hr with hr1 | hr1
        · rw [hr1]; exact hd1
        · rw [hd3] at hr1; exact ih2 r hr1
      · refine ⟨hd1, ?_⟩
        intro r hr
        rcases List.mem_cons.mp hr with hr1 | hr1
        · rw [hr1]; exact hd1
        · rw [hd3] at hr1; exact ih2 r hr1
      · refine ⟨hd1, ?_⟩
        intro r hr
        rcases List.mem_cons.mp hr with hr1 | hr1
        · rw [hr1]; exact hd1
        · rw [hd3] at hr1; exact ih2 r hr1

/-- **C9, amended**: a game in which every event's team is null yields one
record per input event (so the output is empty only for an empty game), all
records carrying a null possession team; the machine never raises. -/
theorem claim_null_teams_amended (input : List PlayEvent)
    (hnull : ∀ e ∈ input, e.team = none) :
    (trackPossessions input).length = input.length ∧
    ∀ r ∈ trackPossessions input, r.possession_team = none := by
  have hnull' : ∀ e ∈ orderEvents input, e.team = none := by
    intro e he
    exact hnull e ((sortBy_perm evLe input).mem_iff.mp he)
  have hteams : teamsOf (orderEvents input) = [] := by
    have : (orderEvents input).filterMap (·.team) = [] := by
      rw [List.filterMap_eq_nil]
      exact hnull'
    rw [teamsOf, this]
    rfl
  refine ⟨trackPossessions_length input, ?_⟩
  intro r hr
  simp only [trackPossessions, hteams, List.mem_reverse] at hr
  exact (runSteps_null_teams (orderEvents input) hnull' _).2 r hr

theorem claim_null_teams_amended_witness :
    (trackPossessions c9evs).length = c9evs.length ∧
    ∀ r ∈ trackPossessions c9evs, r.possession_team = none :=
  claim_null_teams_amended c9evs (by decide)

/-! ### Remaining concrete witnesses -/

/-- The technical free throw of the C3 witness scenario. -/
def c3row : PlayEvent :=
  { id := 2, gameId := 7, period := 1, secondsRemaining := 60,
    playType := some "MadeFreeThrow",
    playText := some "a player makes free throw 2 of 2", team := some "A" }

/-- The C3 witness scenario: a `TechnicalFoul` and the `"2 of 2"` free
throw in the same clock tick. -/
def c3evs : List PlayEvent :=
  [ { id := 1, gameId := 7, period := 1, secondsRemaining := 60,
      playType := some "TechnicalFoul", playText := some "technical foul on b",
      team := some "B" },
    c3row ]

theorem claim_tech_ft_frame_witness :
    (runSteps ["B", "A"] c3evs 2).poss_id = (runSteps ["B", "A"] c3evs 1).poss_id ∧
    (runSteps ["B", "A"] c3evs 2).poss_team = (runSteps ["B", "A"] c3evs 1).poss_team ∧
    (runSteps ["B", "A"] c3evs 2).last_end_reason =
      (runSteps ["B", "A"] c3evs 1).last_end_reason ∧
    (runSteps ["B", "A"] c3evs 2).last_end_team =
      (runSteps ["B", "A"] c3evs 1).last_end_team ∧
    (runSteps ["B", "A"] c3evs 2).revRecords =
      { play_id := c3row.id, gameId := c3row.gameId,
        possession_id := (runSteps ["B", "A"] c3evs 1).poss_id,
        possession_team := (runSteps ["B", "A"] c3evs 1).poss_team,
        play_type := "MadeFreeThrow", play_text := c3row.playText,
        team := c3row.team, outcome := some "tech_ft" }
        :: (runSteps ["B", "A"] c3evs 1).revRecords :=
  claim_tech_ft_frame ["B", "A"] c3evs 1 c3row rfl rfl (by decide)

/-- Two distinct events of one game, for the ordering witness. -/
def c7e1 : PlayEvent :=
  { id := 1, gameId := 7, period := 1, secondsRemaining := 100,
    playType := some "JumpShot", playText := some "a player makes layup",
    team := some "A" }

/-- Second event of the ordering witness. -/
def c7e2 : PlayEvent :=
  { id := 2, gameId := 7, period := 1, secondsRemaining := 100,
    playType := some "Defensive Rebound", playText := some "b rebound",
    team := some "B" }

theorem claim_ordering_deterministic_witness :
    orderEvents [c7e1, c7e2] = orderEvents [c7e2, c7e1] :=
  claim_ordering_deterministic [c7e1, c7e2] [c7e2, c7e1]
    (List.Perm.swap c7e2 c7e1 []) (by decide)

/-- The possession-ending row of the C10 witness. -/
def c10row : PlayEvent :=
  { id := 9, gameId := 7, period := 1, secondsRemaining := 0,
    playType := some "End Period", playText := some "end of period", team := none }

theorem claim_terminator_carries_id_witness :
    ∃ r rest,
      (stepEvent ["A"] false false "end_possession" c10row initState).revRecords =
        r :: rest ∧
      r.possession_id =
        (stepEvent ["A"] false false "end_possession" c10row initState).poss_id - 1 ∧
      r.outcome = (dispatch ["A"] false false "end_possession" c10row initState).outcome :=
  (claim_terminator_carries_id []).2.2 ["A"] false false "end_possession" c10row
    initState (by decide)

theorem claim_possession_ids_amended_witness :
    Adj (fun a b => a.possession_id ≤ b.possession_id) (trackPossessions c2game) ∧
    List.Pairwise (fun a b : Int => a < b)
      ((classifyPossessions (trackPossessions c2game)).map (·.possession_id)) :=
  ⟨(claim_possession_ids_amended c2game).1,
   (claim_possession_ids_amended c2game).2.2.1⟩

end ShotsDash

